import Mathlib

/-!
Verification development for the SoundTouch-based real-time audio pipeline
in `src/audio/processor.ts` (sample FIFO, linear-interpolation rate
transposer, WSOLA time stretcher, pipeline combiner, AudioWorklet adapter).

Modelling conventions:
* JS `number` (IEEE double) values that carry audio samples are modelled by
  `Samp`: either a finite rational, the literal `-Infinity` (used only to
  initialise the best-correlation accumulator) or `nonfin`, which stands for
  every other non-finite value (`NaN`, `+Infinity`, and the `undefined`
  produced by out-of-range typed-array reads).  Arithmetic on `Samp`
  propagates non-finiteness exactly as IEEE arithmetic keeps such values
  non-finite; finite arithmetic is exact rational arithmetic.
* JS numbers used as counters, sizes and parameters are modelled by `ℚ`,
  `ℤ` or `ℕ` as appropriate, with `Int.floor` / ceiling where the source
  uses `Math.floor` / `Math.ceil`.
* `Float32Array` storage is a `List Samp`.  Out-of-range reads yield
  `Samp.nonfin` (JS: `undefined`), out-of-range writes are dropped
  (JS typed arrays ignore writes past the end).
* While-loops are embedded as fuel-indexed recursion; the fuel supplied at
  every call site is generous, and every theorem proved about loop results
  holds for arbitrary fuel unless stated otherwise.
-/

/-- A JS number holding an audio sample: a finite rational, the literal
`-Infinity`, or `nonfin` (any other non-finite value: `NaN`, `+Infinity`,
or `undefined` from an out-of-range typed-array read). -/
inductive Samp where
  | fin (q : ℚ)
  | ninf
  | nonfin
deriving DecidableEq, Repr

namespace Samp

/-- `Number.isFinite`. -/
def isFinite : Samp → Bool
  | .fin _ => true
  | .ninf => false
  | .nonfin => false

/-- IEEE addition, abstracted: finite + finite is exact; any operation
touching a non-finite operand stays non-finite.  `ninf` never reaches
arithmetic in the embedded code (it is only the initial seek accumulator),
so it is absorbed into `nonfin` here. -/
def add : Samp → Samp → Samp
  | .fin a, .fin b => .fin (a + b)
  | _, _ => .nonfin

/-- IEEE multiplication, abstracted in the same way as `add`. -/
def mul : Samp → Samp → Samp
  | .fin a, .fin b => .fin (a * b)
  | _, _ => .nonfin

/-- The JS `>` comparison used by the correlation search.  Comparisons
with `NaN` are false; a finite value is greater than `-Infinity`. -/
def gt : Samp → Samp → Bool
  | .fin a, .fin b => decide (b < a)
  | .fin _, .ninf => true
  | _, _ => false

end Samp

/-- Read `v[i]` for a possibly negative index; out of range gives
`nonfin` (JS: `undefined`). -/
def getZ (v : List Samp) (i : ℤ) : Samp :=
  if 0 ≤ i then v.getD i.toNat Samp.nonfin else Samp.nonfin

/-- Read `v[i]` at a natural index; out of range gives `nonfin`. -/
def getN (v : List Samp) (i : ℕ) : Samp :=
  v.getD i Samp.nonfin

/-- Write `v[i] = x`; out-of-range writes are dropped, as for JS typed
arrays. -/
def setN (v : List Samp) (i : ℕ) (x : Samp) : List Samp :=
  v.set i x

/-- `TypedArray.prototype.subarray(b, e)`: clamps both bounds to the
array, supporting the JS negative-index-from-the-end convention. -/
def jsSub (v : List Samp) (b e : ℤ) : List Samp :=
  let b' : ℕ := if b < 0 then (v.length + b).toNat else min b.toNat v.length
  let e' : ℕ := if e < 0 then (v.length + e).toNat else min e.toNat v.length
  (v.take e').drop b'

/-- `TypedArray.prototype.set(src, offset)`: copy `src` element by element
starting at `offset`.  (The JS version throws when the copy would run past
the end; every call site in the embedded code stays in range, and the
model simply drops such writes.) -/
def jsSet (dst : List Samp) (src : List Samp) (offset : ℕ) : List Samp :=
  match src with
  | [] => dst
  | x :: xs => jsSet (setN dst offset x) xs (offset + 1)

/-- `TypedArray.prototype.copyWithin(target, b, e)` behaves like copying
through an intermediate buffer. -/
def jsCopyWithin (v : List Samp) (target : ℕ) (b e : ℤ) : List Samp :=
  jsSet v (jsSub v b e) target

/-- `RENDER_QUANTUM_FRAMES`. -/
def RENDER_QUANTUM_FRAMES : ℕ := 128

/-- `CHANNELS`. -/
def CHANNELS : ℕ := 2

/-- `FLOAT_EPSILON`. -/
def FLOAT_EPSILON : ℚ := 1 / 10000000000

/-- `clamp(value, min, max)` from the source. -/
def clamp (value minv maxv : ℚ) : ℚ :=
  min maxv (max minv value)

/-- `hasSignificantChange(a, b)`. -/
def hasSignificantChange (a b : ℚ) : Bool :=
  decide (FLOAT_EPSILON < |a - b|)

/-- `FifoSampleBuffer`: stereo interleaved FIFO with a growable backing
vector, a read cursor in frames and a valid frame count. -/
structure FifoSampleBuffer where
  vector : List Samp
  positionFrames : ℕ
  frameCount : ℕ
deriving DecidableEq, Repr

namespace FifoSampleBuffer

/-- A freshly constructed FIFO. -/
def empty : FifoSampleBuffer := ⟨[], 0, 0⟩

/-- `startIndex` getter: index in samples of the start of valid data. -/
def startIndex (f : FifoSampleBuffer) : ℕ :=
  f.positionFrames * CHANNELS

/-- `endIndex` getter: index in samples one past the valid data. -/
def endIndex (f : FifoSampleBuffer) : ℕ :=
  (f.positionFrames + f.frameCount) * CHANNELS

/-- Private `rewind()`: move the valid window to offset 0. -/
def rewind (f : FifoSampleBuffer) : FifoSampleBuffer :=
  if f.positionFrames = 0 then f
  else
    { vector := jsCopyWithin f.vector 0 f.startIndex f.endIndex
      positionFrames := 0
      frameCount := f.frameCount }

/-- `ensureCapacity(numFrames)`; the argument may be fractional (the rate
transposer passes `numFrames / rate + 1`). -/
def ensureCapacity (f : FifoSampleBuffer) (numFrames : ℚ) : FifoSampleBuffer :=
  let minLength : ℕ := (max 0 ⌈numFrames * (CHANNELS : ℚ)⌉).toNat
  if f.vector.length < minLength then
    { vector := jsSet (List.replicate minLength (Samp.fin 0))
        (jsSub f.vector f.startIndex f.endIndex) 0
      positionFrames := 0
      frameCount := f.frameCount }
  else
    f.rewind

/-- `ensureAdditionalCapacity(numFrames)`. -/
def ensureAdditionalCapacity (f : FifoSampleBuffer) (numFrames : ℚ) : FifoSampleBuffer :=
  f.ensureCapacity ((f.frameCount : ℚ) + numFrames)

/-- `put(numFrames)`: reserve frames already written manually into
`vector`. -/
def put (f : FifoSampleBuffer) (numFrames : ℕ) : FifoSampleBuffer :=
  { f with frameCount := f.frameCount + numFrames }

/-- `putSamples(samples, positionFrames, numFrames)`.  A negative
`numFrames` selects the JS default `-1`, meaning all remaining frames of
`samples`.  (Every call site passes a nonnegative frame count or the
default with enough source data, so the `toNat` clamping below never
loses information on reachable calls.) -/
def putSamples (f : FifoSampleBuffer) (samples : List Samp)
    (positionFrames : ℤ) (numFrames : ℤ) : FifoSampleBuffer :=
  let sourceOffset : ℤ := positionFrames * (CHANNELS : ℤ)
  let frames : ℕ :=
    (if 0 ≤ numFrames then numFrames
     else ((samples.length : ℤ) - sourceOffset).fdiv (CHANNELS : ℤ)).toNat
  let numSamples : ℤ := (frames : ℤ) * (CHANNELS : ℤ)
  let f1 := f.ensureCapacity ((f.frameCount : ℚ) + (frames : ℚ))
  let destOffset := f1.endIndex
  { f1 with
      vector := jsSet f1.vector (jsSub samples sourceOffset (sourceOffset + numSamples)) destOffset
      frameCount := f1.frameCount + frames }

/-- `putBuffer(buffer, positionFrames, numFrames)`. -/
def putBuffer (f : FifoSampleBuffer) (buffer : FifoSampleBuffer)
    (positionFrames : ℤ) (numFrames : ℤ) : FifoSampleBuffer :=
  let frames : ℤ :=
    if 0 ≤ numFrames then numFrames else (buffer.frameCount : ℤ) - positionFrames
  f.putSamples buffer.vector ((buffer.positionFrames : ℤ) + positionFrames) frames

/-- `receive(numFrames)`: consume up to `numFrames` frames; the count is
clamped to `[0, frameCount]`. -/
def receive (f : FifoSampleBuffer) (numFrames : ℤ) : FifoSampleBuffer :=
  let frames : ℕ := (min (max numFrames 0) (f.frameCount : ℤ)).toNat
  { f with
      frameCount := f.frameCount - frames
      positionFrames := f.positionFrames + frames }

/-- `receiveSamples(output, numFrames)`: copy then consume.  Returns the
updated FIFO together with the updated `output` array. -/
def receiveSamples (f : FifoSampleBuffer) (output : List Samp)
    (numFrames : ℕ) : FifoSampleBuffer × List Samp :=
  let numSamples := numFrames * CHANNELS
  let sourceOffset := f.startIndex
  let output' := jsSet output (jsSub f.vector sourceOffset (sourceOffset + numSamples)) 0
  (f.receive numFrames, output')

/-- `extract(output, positionFrames, numFrames)`: non-consuming copy. -/
def extract (f : FifoSampleBuffer) (output : List Samp)
    (positionFrames : ℕ) (numFrames : ℕ) : List Samp :=
  let sourceOffset := f.startIndex + positionFrames * CHANNELS
  jsSet output (jsSub f.vector sourceOffset (sourceOffset + numFrames * CHANNELS)) 0

/-- `clear()`. -/
def clear (f : FifoSampleBuffer) : FifoSampleBuffer :=
  (f.receive f.frameCount).rewind

/-- The FIFO storage invariant from the specification: the valid window
fits inside the allocated storage. -/
def Inv (f : FifoSampleBuffer) : Prop :=
  f.endIndex ≤ f.vector.length

instance (f : FifoSampleBuffer) : Decidable f.Inv := by
  unfold Inv; infer_instance

end FifoSampleBuffer

namespace FifoSampleBuffer

/-- The valid window of a FIFO, as a list of samples. -/
def content (f : FifoSampleBuffer) : List Samp :=
  (f.vector.take f.endIndex).drop f.startIndex

end FifoSampleBuffer

/-- One step of a producer/consumer history on a FIFO: `putOp xs` performs
`putSamples(xs, 0, xs.length / CHANNELS)` and `recvOp n` performs
`receive(n)`. -/
inductive FifoOp where
  | putOp (xs : List Samp)
  | recvOp (n : ℕ)
deriving DecidableEq, Repr

namespace FifoOp

/-- Apply one operation to a FIFO. -/
def apply (f : FifoSampleBuffer) : FifoOp → FifoSampleBuffer
  | .putOp xs => f.putSamples xs 0 ((xs.length / CHANNELS : ℕ) : ℤ)
  | .recvOp n => f.receive (n : ℤ)

/-- Apply a whole history, oldest operation first. -/
def applyOps (f : FifoSampleBuffer) : List FifoOp → FifoSampleBuffer
  | [] => f
  | op :: rest => applyOps (apply f op) rest

/-- A history is valid when every `putOp` payload is whole frames and
every `recvOp` consumes at most the frames then valid. -/
def Valid (f : FifoSampleBuffer) : List FifoOp → Prop
  | [] => True
  | .putOp xs :: rest => CHANNELS ∣ xs.length ∧ Valid (apply f (.putOp xs)) rest
  | .recvOp n :: rest => n ≤ f.frameCount ∧ Valid (apply f (.recvOp n)) rest

instance instDecidableValid :
    ∀ (f : FifoSampleBuffer) (ops : List FifoOp), Decidable (Valid f ops)
  | _, [] => .isTrue trivial
  | f, .putOp xs :: rest =>
    @instDecidableAnd _ _ inferInstance (instDecidableValid (FifoOp.apply f (.putOp xs)) rest)
  | f, .recvOp n :: rest =>
    @instDecidableAnd _ _ inferInstance (instDecidableValid (FifoOp.apply f (.recvOp n)) rest)

/-- Total number of frames appended by the history. -/
def totalPut : List FifoOp → ℕ
  | [] => 0
  | .putOp xs :: rest => xs.length / CHANNELS + totalPut rest
  | .recvOp _ :: rest => totalPut rest

/-- Total number of frames consumed by the history. -/
def totalReceived : List FifoOp → ℕ
  | [] => 0
  | .putOp _ :: rest => totalReceived rest
  | .recvOp n :: rest => n + totalReceived rest

/-- Concatenation of all appended samples, in order. -/
def putConcat : List FifoOp → List Samp
  | [] => []
  | .putOp xs :: rest => xs ++ putConcat rest
  | .recvOp _ :: rest => putConcat rest

end FifoOp

/-- `RateTransposer` state: `_rate`, the fractional phase accumulator
`slopeCount`, and the carried previous sample of each channel. -/
structure RateTransposer where
  rate : ℚ
  slopeCount : ℚ
  prevSampleL : Samp
  prevSampleR : Samp
deriving DecidableEq, Repr

namespace RateTransposer

/-- Field initialisers of the class (also the `reset()` state). -/
def init : RateTransposer := ⟨1, 0, Samp.fin 0, Samp.fin 0⟩

/-- The first loop of `transpose`: while `slopeCount < 1.0`, interpolate
between the carried previous sample and the first input frame. -/
def transposeFirst (r : ℚ) (pL pR : Samp) (src : List Samp)
    (srcOffset destOffset : ℕ) :
    ℕ → ℚ → ℕ → List Samp → ℚ × ℕ × List Samp
  | 0, s, outFrames, dest => (s, outFrames, dest)
  | fuel + 1, s, outFrames, dest =>
    if s < 1 then
      let d1 := setN dest (destOffset + CHANNELS * outFrames)
        (((Samp.fin (1 - s)).mul pL).add ((Samp.fin s).mul (getN src srcOffset)))
      let d2 := setN d1 (destOffset + CHANNELS * outFrames + 1)
        (((Samp.fin (1 - s)).mul pR).add ((Samp.fin s).mul (getN src (srcOffset + 1))))
      transposeFirst r pL pR src srcOffset destOffset fuel (s + r) (outFrames + 1) d2
    else (s, outFrames, dest)

/-- The labelled outer/inner loop of `transpose`, stepped one branch at a
time: when `slopeCount > 1.0` subtract one and advance the source index
(breaking out once `used >= numFrames - 1`), otherwise write one
interpolated frame. -/
def transposeSecond (r : ℚ) (numFrames : ℕ) (src : List Samp)
    (srcOffset destOffset : ℕ) :
    ℕ → ℚ → ℕ → ℕ → List Samp → ℚ × ℕ × ℕ × List Samp
  | 0, s, used, outFrames, dest => (s, used, outFrames, dest)
  | fuel + 1, s, used, outFrames, dest =>
    if 1 < s then
      if numFrames - 1 ≤ used + 1 then (s - 1, used + 1, outFrames, dest)
      else transposeSecond r numFrames src srcOffset destOffset fuel (s - 1) (used + 1)
        outFrames dest
    else
      let srcIndex := srcOffset + CHANNELS * used
      let d1 := setN dest (destOffset + CHANNELS * outFrames)
        (((Samp.fin (1 - s)).mul (getN src srcIndex)).add
          ((Samp.fin s).mul (getN src (srcIndex + 2))))
      let d2 := setN d1 (destOffset + CHANNELS * outFrames + 1)
        (((Samp.fin (1 - s)).mul (getN src (srcIndex + 1))).add
          ((Samp.fin s).mul (getN src (srcIndex + 3))))
      transposeSecond r numFrames src srcOffset destOffset fuel (s + r) used
        (outFrames + 1) d2

/-- Generous fuel for the first loop (its true iteration count is
`max 0 ⌈(1 - slopeCount) / rate⌉` when `rate > 0`). -/
def transposeFuelFirst (r s : ℚ) : ℕ := (⌈(1 - s) / r⌉).toNat + 1

/-- Generous fuel for the second loop (each step either consumes a source
frame or writes an output frame, and both are bounded when `rate > 0`). -/
def transposeFuelSecond (r : ℚ) (numFrames : ℕ) : ℕ :=
  numFrames + (⌈((numFrames : ℚ) + 2) / r⌉).toNat + 2

/-- `transpose(numFrames)`: returns the updated transposer state, the
number of output frames produced, and the updated destination vector. -/
def transpose (t : RateTransposer) (numFrames : ℕ) (src : List Samp)
    (srcOffset : ℕ) (dest : List Samp) (destOffset : ℕ) :
    RateTransposer × ℕ × List Samp :=
  if numFrames = 0 then (t, 0, dest)
  else
    let fl := transposeFirst t.rate t.prevSampleL t.prevSampleR src srcOffset destOffset
      (transposeFuelFirst t.rate t.slopeCount) t.slopeCount 0 dest
    let s1 := fl.1 - 1
    let res :=
      if numFrames ≠ 1 then
        transposeSecond t.rate numFrames src srcOffset destOffset
          (transposeFuelSecond t.rate numFrames) s1 0 fl.2.1 fl.2.2
      else (s1, 0, fl.2.1, fl.2.2)
    let prevL := getN src (srcOffset + CHANNELS * numFrames - 2)
    let prevR := getN src (srcOffset + CHANNELS * numFrames - 1)
    ({ t with slopeCount := res.1, prevSampleL := prevL, prevSampleR := prevR },
      res.2.2.1, res.2.2.2)

/-- `RateTransposer.process()`: early-return on empty input, reserve
`numFrames / rate + 1` additional output frames, transpose, consume the
whole input, and reserve the produced frames in the output FIFO. -/
def process (t : RateTransposer) (fi fo : FifoSampleBuffer) :
    RateTransposer × FifoSampleBuffer × FifoSampleBuffer :=
  let numFrames := fi.frameCount
  if numFrames = 0 then (t, fi, fo)
  else
    let fo1 := fo.ensureAdditionalCapacity ((numFrames : ℚ) / t.rate + 1)
    let res := t.transpose numFrames fi.vector fi.startIndex fo1.vector fo1.endIndex
    let fi1 := fi.receive (numFrames : ℤ)
    let fo2 := ({ fo1 with vector := res.2.2 }).put res.2.1
    (res.1, fi1, fo2)

end RateTransposer

/-- `DEFAULT_SEQUENCE_MS` (0 = auto). -/
def DEFAULT_SEQUENCE_MS : ℚ := 0

/-- `DEFAULT_SEEKWINDOW_MS` (0 = auto). -/
def DEFAULT_SEEKWINDOW_MS : ℚ := 0

/-- `DEFAULT_OVERLAP_MS`. -/
def DEFAULT_OVERLAP_MS : ℚ := 8

/-- `SCAN_OFFSETS`: the four fixed candidate-offset tables of the
hierarchical (quick) seek. -/
def SCAN_OFFSETS : List (List ℤ) :=
  [[124, 186, 248, 310, 372, 434, 496, 558, 620, 682, 744, 806, 868, 930, 992,
    1054, 1116, 1178, 1240, 1302, 1364, 1426, 1488, 0],
   [-100, -75, -50, -25, 25, 50, 75, 100, 0, 0, 0, 0, 0, 0, 0, 0, 0, 0, 0, 0, 0, 0, 0, 0],
   [-20, -15, -10, -5, 5, 10, 15, 20, 0, 0, 0, 0, 0, 0, 0, 0, 0, 0, 0, 0, 0, 0, 0, 0],
   [-4, -3, -2, -1, 1, 2, 3, 4, 0, 0, 0, 0, 0, 0, 0, 0, 0, 0, 0, 0, 0, 0, 0, 0]]

/-- `AUTOSEQ_TEMPO_LOW`. -/
def AUTOSEQ_TEMPO_LOW : ℚ := 1 / 4

/-- `AUTOSEQ_TEMPO_TOP`. -/
def AUTOSEQ_TEMPO_TOP : ℚ := 4

/-- `AUTOSEQ_AT_MIN`. -/
def AUTOSEQ_AT_MIN : ℚ := 125

/-- `AUTOSEQ_AT_MAX`. -/
def AUTOSEQ_AT_MAX : ℚ := 50

/-- `AUTOSEQ_K`. -/
def AUTOSEQ_K : ℚ := (AUTOSEQ_AT_MAX - AUTOSEQ_AT_MIN) / (AUTOSEQ_TEMPO_TOP - AUTOSEQ_TEMPO_LOW)

/-- `AUTOSEQ_C`. -/
def AUTOSEQ_C : ℚ := AUTOSEQ_AT_MIN - AUTOSEQ_K * AUTOSEQ_TEMPO_LOW

/-- `AUTOSEEK_AT_MIN`. -/
def AUTOSEEK_AT_MIN : ℚ := 25

/-- `AUTOSEEK_AT_MAX`. -/
def AUTOSEEK_AT_MAX : ℚ := 15

/-- `AUTOSEEK_K`. -/
def AUTOSEEK_K : ℚ := (AUTOSEEK_AT_MAX - AUTOSEEK_AT_MIN) / (AUTOSEQ_TEMPO_TOP - AUTOSEQ_TEMPO_LOW)

/-- `AUTOSEEK_C`. -/
def AUTOSEEK_C : ℚ := AUTOSEEK_AT_MIN - AUTOSEEK_K * AUTOSEQ_TEMPO_LOW

/-- The JS `%` operator for a nonnegative dividend and positive divisor
(the only use, `newOvl % 8` with `newOvl ≥ 16`, satisfies this). -/
def jsModPos (a b : ℚ) : ℚ := a - b * (⌊a / b⌋ : ℤ)

/-- `Stretch` (WSOLA time-stretcher) state. -/
structure Stretch where
  quickSeek : Bool
  sampleRate : ℚ
  overlapMs : ℚ
  sequenceMs : ℚ
  seekWindowMs : ℚ
  autoSeqSetting : Bool
  autoSeekSetting : Bool
  overlapLength : ℕ
  seekWindowLength : ℤ
  seekLength : ℤ
  nominalSkip : ℚ
  skipFract : ℚ
  sampleReq : ℤ
  tempo : ℚ
  midBuffer : List Samp
  refMidBuffer : List Samp
  midBufferInitialized : Bool
deriving DecidableEq, Repr

namespace Stretch

/-- `calculateOverlapLength(overlapInMs)`: sample-rate-scaled window,
clamped up to 16 and floored to a multiple of 8; reallocates the
zero-filled mid/reference buffers. -/
def calculateOverlapLength (st : Stretch) (overlapInMs : ℚ) : Stretch :=
  let newOvl := st.sampleRate * overlapInMs / 1000
  let newOvl2 := if newOvl < 16 then 16 else newOvl
  let newOvl3 := newOvl2 - jsModPos newOvl2 8
  let ol := (⌊newOvl3⌋).toNat
  { st with
      overlapLength := ol
      refMidBuffer := List.replicate (ol * CHANNELS) (Samp.fin 0)
      midBuffer := List.replicate (ol * CHANNELS) (Samp.fin 0) }

/-- `calculateSequenceParameters()`: auto-derive `sequenceMs` /
`seekWindowMs` from tempo when in auto mode, then convert both to frame
counts at the current sample rate. -/
def calculateSequenceParameters (st : Stretch) : Stretch :=
  let st1 :=
    if st.autoSeqSetting then
      { st with sequenceMs :=
          ((⌊clamp (AUTOSEQ_C + AUTOSEQ_K * st.tempo) AUTOSEQ_AT_MAX AUTOSEQ_AT_MIN
            + 1/2⌋ : ℤ) : ℚ) }
    else st
  let st2 :=
    if st1.autoSeekSetting then
      { st1 with seekWindowMs :=
          ((⌊clamp (AUTOSEEK_C + AUTOSEEK_K * st1.tempo) AUTOSEEK_AT_MAX AUTOSEEK_AT_MIN
            + 1/2⌋ : ℤ) : ℚ) }
    else st1
  { st2 with
      seekWindowLength := ⌊st2.sampleRate * st2.sequenceMs / 1000⌋
      seekLength := ⌊st2.sampleRate * st2.seekWindowMs / 1000⌋ }

/-- The `tempo` setter: recompute sequence parameters, `nominalSkip`,
reset `skipFract`, and derive `sampleReq`. -/
def setTempo (st : Stretch) (newTempo : ℚ) : Stretch :=
  let st2 := calculateSequenceParameters { st with tempo := newTempo }
  let nominalSkip := newTempo * ((st2.seekWindowLength : ℚ) - (st2.overlapLength : ℚ))
  let intSkip := ⌊nominalSkip + 1/2⌋
  { st2 with
      nominalSkip := nominalSkip
      skipFract := 0
      sampleReq := max (intSkip + (st2.overlapLength : ℤ)) st2.seekWindowLength + st2.seekLength }

/-- `setParameters(sampleRate, sequenceMs, seekWindowMs, overlapMs)`. -/
def setParameters (st : Stretch) (sampleRate sequenceMs seekWindowMs overlapMs : ℚ) :
    Stretch :=
  let st1 := if 0 < sampleRate then { st with sampleRate := sampleRate } else st
  let st2 := if 0 < overlapMs then { st1 with overlapMs := overlapMs } else st1
  let st3 :=
    if 0 < sequenceMs then { st2 with sequenceMs := sequenceMs, autoSeqSetting := false }
    else { st2 with autoSeqSetting := true }
  let st4 :=
    if 0 < seekWindowMs then { st3 with seekWindowMs := seekWindowMs, autoSeekSetting := false }
    else { st3 with autoSeekSetting := true }
  let st5 := calculateSequenceParameters st4
  let st6 := calculateOverlapLength st5 st5.overlapMs
  let st7 := setTempo st6 st6.tempo
  { st7 with midBufferInitialized := false }

/-- The field initialisers of the class, before the constructor body. -/
def base (sampleRate : ℚ) : Stretch :=
  { quickSeek := true
    sampleRate := sampleRate
    overlapMs := DEFAULT_OVERLAP_MS
    sequenceMs := DEFAULT_SEQUENCE_MS
    seekWindowMs := DEFAULT_SEEKWINDOW_MS
    autoSeqSetting := true
    autoSeekSetting := true
    overlapLength := 0
    seekWindowLength := 0
    seekLength := 0
    nominalSkip := 0
    skipFract := 0
    sampleReq := 0
    tempo := 1
    midBuffer := []
    refMidBuffer := []
    midBufferInitialized := false }

/-- The constructor `new Stretch(sampleRate)`. -/
def init (sampleRate : ℚ) : Stretch :=
  setParameters (base sampleRate) sampleRate DEFAULT_SEQUENCE_MS DEFAULT_SEEKWINDOW_MS
    DEFAULT_OVERLAP_MS

/-- `clear()`. -/
def clear (st : Stretch) (fi fo : FifoSampleBuffer) :
    Stretch × FifoSampleBuffer × FifoSampleBuffer :=
  ({ st with midBufferInitialized := false }, fi.clear, fo.clear)

/-- `preCalculateCorrelationReferenceStereo()`: triangular weighting of
`midBuffer` into `refMidBuffer`. -/
def preCalculateCorrelationReferenceStereo (st : Stretch) : Stretch :=
  let buf :=
    (List.range st.overlapLength).foldl (fun buf i =>
      let weight : ℚ := ((i * (st.overlapLength - i) : ℕ) : ℚ)
      let idx := CHANNELS * i
      setN (setN buf idx ((getN st.midBuffer idx).mul (Samp.fin weight)))
        (idx + 1) ((getN st.midBuffer (idx + 1)).mul (Samp.fin weight)))
      st.refMidBuffer
  { st with refMidBuffer := buf }

/-- `calculateCrossCorrelationStereo(offsetFrames, compare)`: unnormalised
stereo cross-correlation against the input buffer, starting at sample
index 2 as in the original implementation. -/
def calculateCrossCorrelationStereo (st : Stretch) (fi : FifoSampleBuffer)
    (offsetFrames : ℤ) (compare : List Samp) : Samp :=
  let mixingPosition : ℤ := (fi.startIndex : ℤ) + (CHANNELS : ℤ) * offsetFrames
  ((List.range st.overlapLength).drop 1).foldl (fun corr k =>
    let i : ℕ := CHANNELS * k
    corr.add (((getZ fi.vector (mixingPosition + i)).mul (getN compare i)).add
      ((getZ fi.vector (mixingPosition + i + 1)).mul (getN compare (i + 1)))))
    (Samp.fin 0)

/-- `seekBestOverlapPositionStereo()`: exhaustive linear scan. -/
def seekBestOverlapPositionStereo (st : Stretch) (fi : FifoSampleBuffer) :
    Stretch × ℤ :=
  let st1 := preCalculateCorrelationReferenceStereo st
  let res := (List.range st1.seekLength.toNat).foldl (fun acc off =>
    let corr := calculateCrossCorrelationStereo st1 fi (off : ℤ) st1.refMidBuffer
    if corr.gt acc.2 then ((off : ℤ), corr) else acc) (0, Samp.ninf)
  (st1, res.1)

/-- One row of the hierarchical scan: candidates end at the 0 sentinel,
and a candidate at or past `seekLength` stops the row. -/
def scanRow (st : Stretch) (fi : FifoSampleBuffer) (corrOffset : ℤ) :
    List ℤ → ℤ × Samp → ℤ × Samp
  | [], acc => acc
  | o :: rest, acc =>
    if o = 0 then acc
    else
      let tempOffset := corrOffset + o
      if st.seekLength ≤ tempOffset then acc
      else
        let corr := calculateCrossCorrelationStereo st fi tempOffset st.refMidBuffer
        scanRow st fi corrOffset rest (if corr.gt acc.2 then (tempOffset, corr) else acc)

/-- `seekBestOverlapPositionStereoQuick()`: 4-pass hierarchical scan over
the fixed offset tables, re-centred on the best offset after each pass. -/
def seekBestOverlapPositionStereoQuick (st : Stretch) (fi : FifoSampleBuffer) :
    Stretch × ℤ :=
  let st1 := preCalculateCorrelationReferenceStereo st
  let r0 := scanRow st1 fi 0 (SCAN_OFFSETS.getD 0 []) (0, Samp.ninf)
  let r1 := scanRow st1 fi r0.1 (SCAN_OFFSETS.getD 1 []) r0
  let r2 := scanRow st1 fi r1.1 (SCAN_OFFSETS.getD 2 []) r1
  let r3 := scanRow st1 fi r2.1 (SCAN_OFFSETS.getD 3 []) r2
  (st1, r3.1)

/-- `seekBestOverlapPosition()`. -/
def seekBestOverlapPosition (st : Stretch) (fi : FifoSampleBuffer) : Stretch × ℤ :=
  if st.quickSeek then seekBestOverlapPositionStereoQuick st fi
  else seekBestOverlapPositionStereo st fi

/-- `overlap(offsetFrames)`: linear cross-fade of `midBuffer` against the
input window, written at the output's `endIndex`. -/
def overlap (st : Stretch) (fi : FifoSampleBuffer) (offsetFrames : ℤ)
    (outputV : List Samp) (outputPos : ℕ) : List Samp :=
  let inputPosition : ℤ := (fi.startIndex : ℤ) + (CHANNELS : ℤ) * offsetFrames
  let frameScale : ℚ := 1 / (st.overlapLength : ℚ)
  (List.range st.overlapLength).foldl (fun out i =>
    let fadeOut : ℚ := ((st.overlapLength - i : ℕ) : ℚ) * frameScale
    let fadeIn : ℚ := (i : ℚ) * frameScale
    let ctx := CHANNELS * i
    let inIdx : ℤ := inputPosition + (ctx : ℤ)
    let outIdx := outputPos + ctx
    setN (setN out outIdx
        (((getZ fi.vector inIdx).mul (Samp.fin fadeIn)).add
          ((getN st.midBuffer ctx).mul (Samp.fin fadeOut))))
      (outIdx + 1)
      (((getZ fi.vector (inIdx + 1)).mul (Samp.fin fadeIn)).add
        ((getN st.midBuffer (ctx + 1)).mul (Samp.fin fadeOut))))
    outputV

/-- One iteration of the `process()` while-loop: seek, overlap-add, copy
the non-overlapped middle, refresh `midBuffer`, and advance the input
cursor by `⌊skipFract + nominalSkip⌋`. -/
def iter (st : Stretch) (fi fo : FifoSampleBuffer) :
    Stretch × FifoSampleBuffer × FifoSampleBuffer :=
  let sk := seekBestOverlapPosition st fi
  let st1 := sk.1
  let offset := sk.2
  let fo1 := fo.ensureAdditionalCapacity ((st1.overlapLength : ℕ) : ℚ)
  let fo2 := { fo1 with vector := overlap st1 fi offset fo1.vector fo1.endIndex }
  let fo3 := fo2.put st1.overlapLength
  let nonOverlap : ℤ := st1.seekWindowLength - 2 * (st1.overlapLength : ℤ)
  let fo4 :=
    if 0 < nonOverlap then fo3.putBuffer fi (offset + (st1.overlapLength : ℤ)) nonOverlap
    else fo3
  let start : ℤ := (fi.startIndex : ℤ)
    + (CHANNELS : ℤ) * (offset + st1.seekWindowLength - (st1.overlapLength : ℤ))
  let mid :=
    jsSet st1.midBuffer
      (jsSub fi.vector start (start + (CHANNELS : ℤ) * (st1.overlapLength : ℤ))) 0
  let st2 := { st1 with midBuffer := mid }
  let skipF := st2.skipFract + st2.nominalSkip
  let overlapSkip : ℤ := ⌊skipF⌋
  let st3 := { st2 with skipFract := skipF - (overlapSkip : ℚ) }
  (st3, fi.receive overlapSkip, fo4)

/-- The `process()` while-loop, with fuel (each real iteration consumes
`⌊skipFract + nominalSkip⌋ ≥ 1` input frames whenever `nominalSkip ≥ 1`,
so the fuel supplied by `process` below is generous). -/
def loop : ℕ → Stretch → FifoSampleBuffer → FifoSampleBuffer →
    Stretch × FifoSampleBuffer × FifoSampleBuffer
  | 0, st, fi, fo => (st, fi, fo)
  | fuel + 1, st, fi, fo =>
    if st.sampleReq ≤ (fi.frameCount : ℤ) then
      let r := iter st fi fo
      loop fuel r.1 r.2.1 r.2.2
    else (st, fi, fo)

/-- `Stretch.process()`: prime `midBuffer` with `overlapLength` frames
once, then run iterations while enough input is buffered. -/
def process (st : Stretch) (fi fo : FifoSampleBuffer) :
    Stretch × FifoSampleBuffer × FifoSampleBuffer :=
  if st.midBufferInitialized then loop (fi.frameCount + 1) st fi fo
  else if fi.frameCount < st.overlapLength then (st, fi, fo)
  else
    let rs := fi.receiveSamples st.midBuffer st.overlapLength
    let st1 := { st with midBuffer := rs.2, midBufferInitialized := true }
    loop (rs.1.frameCount + 1) st1 rs.1 fo

end Stretch

namespace Stretch

/-- Stretcher states reachable through the public interface: construction,
`setParameters`, the `tempo` setter, `process`, and `clear`. -/
inductive Reachable : Stretch → Prop where
  | ctor (sampleRate : ℚ) : Reachable (init sampleRate)
  | params (st : Stretch) (sampleRate sequenceMs seekWindowMs overlapMs : ℚ) :
      Reachable st → Reachable (st.setParameters sampleRate sequenceMs seekWindowMs overlapMs)
  | tempoSet (st : Stretch) (t : ℚ) : Reachable st → Reachable (st.setTempo t)
  | proc (st : Stretch) (fi fo : FifoSampleBuffer) :
      Reachable st → Reachable ((st.process fi fo).1)
  | clearState (st : Stretch) (fi fo : FifoSampleBuffer) :
      Reachable st → Reachable ((st.clear fi fo).1)

end Stretch

/-- Stable handle naming one of the Combiner's three FIFOs; the pipes hold
such handles instead of live references (the source mutates reference
fields, re-pointed only on topology changes). -/
inductive FifoId where
  | inp
  | mid
  | out
deriving DecidableEq, Repr

/-- `SoundTouch`: the pipeline combiner owning the three FIFOs, the two
pipes, the effective `_rate` / `_tempo`, and the virtual parameter
triple. -/
structure SoundTouch where
  inputBuffer : FifoSampleBuffer
  intermediateBuffer : FifoSampleBuffer
  outputBuffer : FifoSampleBuffer
  transposer : RateTransposer
  stretch : Stretch
  transposerIn : FifoId
  transposerOut : FifoId
  stretchIn : FifoId
  stretchOut : FifoId
  rate : ℚ
  tempo : ℚ
  virtualPitch : ℚ
  virtualRate : ℚ
  virtualTempo : ℚ
deriving DecidableEq, Repr

namespace SoundTouch

/-- Resolve a FIFO handle. -/
def getBuf (s : SoundTouch) : FifoId → FifoSampleBuffer
  | .inp => s.inputBuffer
  | .mid => s.intermediateBuffer
  | .out => s.outputBuffer

/-- Store a FIFO back through its handle. -/
def setBuf (s : SoundTouch) : FifoId → FifoSampleBuffer → SoundTouch
  | .inp, f => { s with inputBuffer := f }
  | .mid, f => { s with intermediateBuffer := f }
  | .out, f => { s with outputBuffer := f }

/-- `calculateEffectiveRateAndTempo()`: derive the effective rate and
tempo from the virtual triple, push them into the pipes only on
significant change, and re-point the pipes' buffers only when the
topology (stretch-first iff rate > 1) changes.  (`virtualPitch` is never
zero on reachable calls — the worklet clamps pitch parameters well away
from zero — so the ℚ division matches the JS one.) -/
def calculateEffectiveRateAndTempo (s : SoundTouch) : SoundTouch :=
  let previousTempo := s.tempo
  let previousRate := s.rate
  let t := s.virtualTempo / s.virtualPitch
  let r := s.virtualRate * s.virtualPitch
  let s1 := { s with tempo := t, rate := r }
  let s2 :=
    if hasSignificantChange t previousTempo then { s1 with stretch := s1.stretch.setTempo t }
    else s1
  let s3 :=
    if hasSignificantChange r previousRate then
      { s2 with transposer := { s2.transposer with rate := r } }
    else s2
  if 1 < r then
    if s3.transposerOut ≠ FifoId.out then
      { s3 with
          stretchIn := .inp
          stretchOut := .mid
          transposerIn := .mid
          transposerOut := .out }
    else s3
  else
    if s3.stretchOut ≠ FifoId.out then
      { s3 with
          transposerIn := .inp
          transposerOut := .mid
          stretchIn := .mid
          stretchOut := .out }
    else s3

/-- The `rate` setter. -/
def setRate (s : SoundTouch) (rate : ℚ) : SoundTouch :=
  calculateEffectiveRateAndTempo { s with virtualRate := rate }

/-- The `tempo` setter. -/
def setTempo (s : SoundTouch) (tempo : ℚ) : SoundTouch :=
  calculateEffectiveRateAndTempo { s with virtualTempo := tempo }

/-- The `pitch` setter (a ratio; semitone merging happens in the
adapter). -/
def setPitch (s : SoundTouch) (pitch : ℚ) : SoundTouch :=
  calculateEffectiveRateAndTempo { s with virtualPitch := pitch }

/-- The constructor `new SoundTouch(sampleRate)`: before the constructor
body the pipes point at their own fresh buffers (modelled by handles that
differ from `out`, which is all the rewiring guard inspects), and the
constructor's `calculateEffectiveRateAndTempo` immediately re-points them
to the combiner's FIFOs. -/
def init (sampleRate : ℚ) : SoundTouch :=
  calculateEffectiveRateAndTempo
    { inputBuffer := FifoSampleBuffer.empty
      intermediateBuffer := FifoSampleBuffer.empty
      outputBuffer := FifoSampleBuffer.empty
      transposer := RateTransposer.init
      stretch := Stretch.init sampleRate
      transposerIn := .inp
      transposerOut := .mid
      stretchIn := .mid
      stretchOut := .inp
      rate := 1
      tempo := 1
      virtualPitch := 1
      virtualRate := 1
      virtualTempo := 1 }

/-- Run the stretcher over its wired FIFOs. -/
def stretchStep (s : SoundTouch) : SoundTouch :=
  let r := s.stretch.process (s.getBuf s.stretchIn) (s.getBuf s.stretchOut)
  setBuf (setBuf { s with stretch := r.1 } s.stretchIn r.2.1) s.stretchOut r.2.2

/-- Run the transposer over its wired FIFOs. -/
def transposerStep (s : SoundTouch) : SoundTouch :=
  let r := s.transposer.process (s.getBuf s.transposerIn) (s.getBuf s.transposerOut)
  setBuf (setBuf { s with transposer := r.1 } s.transposerIn r.2.1) s.transposerOut r.2.2

/-- `SoundTouch.process()`: stretch before transpose when the effective
rate exceeds 1, transpose before stretch otherwise. -/
def process (s : SoundTouch) : SoundTouch :=
  if 1 < s.rate then transposerStep (stretchStep s)
  else stretchStep (transposerStep s)

/-- Stretch-first wiring (used when the effective rate exceeds 1). -/
def WiredA (s : SoundTouch) : Prop :=
  s.stretchIn = .inp ∧ s.stretchOut = .mid ∧ s.transposerIn = .mid ∧ s.transposerOut = .out

/-- Transpose-first wiring (used when the effective rate is at most 1). -/
def WiredB (s : SoundTouch) : Prop :=
  s.transposerIn = .inp ∧ s.transposerOut = .mid ∧ s.stretchIn = .mid ∧ s.stretchOut = .out

/-- The wiring matches the topology selected by the effective rate. -/
def WiredOK (s : SoundTouch) : Prop :=
  if 1 < s.rate then WiredA s else WiredB s

/-- The four handle fields, for stating that re-pointing is a no-op. -/
def wiring (s : SoundTouch) : FifoId × FifoId × FifoId × FifoId :=
  (s.transposerIn, s.transposerOut, s.stretchIn, s.stretchOut)

/-- Combiner states reachable through the public interface. -/
inductive Reachable : SoundTouch → Prop where
  | ctor (sampleRate : ℚ) : Reachable (init sampleRate)
  | rateSet (s : SoundTouch) (x : ℚ) : Reachable s → Reachable (s.setRate x)
  | tempoSet (s : SoundTouch) (x : ℚ) : Reachable s → Reachable (s.setTempo x)
  | pitchSet (s : SoundTouch) (x : ℚ) : Reachable s → Reachable (s.setPitch x)
  | proc (s : SoundTouch) : Reachable s → Reachable s.process

/-- The dataflow the specification prescribes when the effective rate
exceeds 1: the Stretcher consumes the combiner input FIFO into the
intermediate FIFO, then the Transposer consumes the intermediate FIFO
into the output FIFO. -/
def stretchFirstFlow (s : SoundTouch) : SoundTouch :=
  let r1 := s.stretch.process s.inputBuffer s.intermediateBuffer
  let r2 := s.transposer.process r1.2.2 s.outputBuffer
  { s with
      stretch := r1.1
      transposer := r2.1
      inputBuffer := r1.2.1
      intermediateBuffer := r2.2.1
      outputBuffer := r2.2.2 }

/-- The dataflow the specification prescribes when the effective rate is
at most 1: the Transposer runs first, feeding the Stretcher through the
intermediate FIFO. -/
def transposerFirstFlow (s : SoundTouch) : SoundTouch :=
  let r1 := s.transposer.process s.inputBuffer s.intermediateBuffer
  let r2 := s.stretch.process r1.2.2 s.outputBuffer
  { s with
      transposer := r1.1
      stretch := r2.1
      inputBuffer := r1.2.1
      intermediateBuffer := r2.2.1
      outputBuffer := r2.2.2 }

end SoundTouch

/-- `WorkletParams`: the four automation-rate parameter arrays handed to
`process` (each a `Float32Array` of finite parameter values). -/
structure WorkletParams where
  rate : List ℚ
  tempo : List ℚ
  pitch : List ℚ
  pitchSemitones : List ℚ
deriving DecidableEq, Repr

/-- `paramValue(params, name, fallback)`. -/
def paramValue (arr : List ℚ) (fallback : ℚ) : ℚ :=
  if 0 < arr.length then arr.getD 0 fallback else fallback

/-- `fill(0)` on a channel array. -/
def fill0 (ch : List Samp) : List Samp :=
  List.replicate ch.length (Samp.fin 0)

/-- Write sample `x` at frame `i` of channel `c` of an output bus.  The
bus is indexed, rather than holding separate channel values, because the
adapter's `rightOut` may alias `leftOut` (`output[1] ?? output[0]`), and
the aliased writes must land in the same array. -/
def busWrite (bus : List (List Samp)) (c i : ℕ) (x : Samp) : List (List Samp) :=
  bus.set c (setN (bus.getD c []) i x)

/-- The silence path: `leftOut.fill(0); if (rightOut !== leftOut)
rightOut.fill(0)`. -/
def busFill0 (bus : List (List Samp)) (lIdx rIdx : ℕ) : List (List Samp) :=
  let b1 := bus.set lIdx (fill0 (bus.getD lIdx []))
  if rIdx ≠ lIdx then b1.set rIdx (fill0 (b1.getD rIdx [])) else b1

/-- The input interleaving loop, unrolled from iteration `n` downwards:
`inputInterleaved[i*2] = leftIn[i]; inputInterleaved[i*2+1] = rightIn[i]`
for `i = 0 .. n-1`. -/
def interleaveLoop (il leftIn rightIn : List Samp) : ℕ → List Samp
  | 0 => il
  | n + 1 =>
      let a := interleaveLoop il leftIn rightIn n
      setN (setN a (n * 2) (getN leftIn n)) (n * 2 + 1) (getN rightIn n)

/-- The full interleaving loop (`for i < leftIn.length`). -/
def interleaveInto (il leftIn rightIn : List Samp) : List Samp :=
  interleaveLoop il leftIn rightIn leftIn.length

/-- The de-interleave / NaN-protection output loop, unrolled from
iteration `n` downwards: reads lanes `outIl[i*2]`, `outIl[i*2+1]`, zeroes
non-finite values and writes them to channels `lIdx`, `rIdx` at frame
`i`, for `i = 0 .. n-1`. -/
def outWriteLoop (bus : List (List Samp)) (outIl : List Samp) (lIdx rIdx : ℕ) :
    ℕ → List (List Samp)
  | 0 => bus
  | n + 1 =>
      let b := outWriteLoop bus outIl lIdx rIdx n
      let l := getN outIl (n * 2)
      let r := getN outIl (n * 2 + 1)
      busWrite (busWrite b lIdx n (if l.isFinite then l else Samp.fin 0)) rIdx n
        (if r.isFinite then r else Samp.fin 0)

/-- `SoundTouchProcessor`: the AudioWorklet adapter state — the pipeline
and the two interleaved scratch buffers. -/
structure SoundTouchProcessor where
  pipe : SoundTouch
  inputInterleaved : List Samp
  outputInterleaved : List Samp
deriving DecidableEq, Repr

namespace SoundTouchProcessor

/-- Adapter construction: a fresh pipeline and two zeroed
`RENDER_QUANTUM_FRAMES * CHANNELS` scratch buffers. -/
def init (sampleRate : ℚ) : SoundTouchProcessor :=
  { pipe := SoundTouch.init sampleRate
    inputInterleaved := List.replicate (RENDER_QUANTUM_FRAMES * CHANNELS) (Samp.fin 0)
    outputInterleaved := List.replicate (RENDER_QUANTUM_FRAMES * CHANNELS) (Samp.fin 0) }

/-- `SoundTouchProcessor.process(inputs, outputs, parameters)`.  The model
is total (the embedded calls never throw), and returns the new adapter
state, the contents of the first output bus after the call, and the JS
return value.  `pow2` abstracts `x ↦ Math.pow(2, x)`, whose value is
irrational in general; no claim depends on it.  Channel lanes are
addressed by index (`lIdx`, `rIdx`) so that the mono-output aliasing
`output[1] ?? output[0]` is modelled faithfully. -/
def processMain (pow2 : ℚ → ℚ) (p : SoundTouchProcessor)
    (input output : List (List Samp)) (parameters : WorkletParams) :
    SoundTouchProcessor × List (List Samp) × Bool :=
  let lIdx : ℕ := 0
  let rIdx : ℕ := if 1 < output.length then 1 else 0
  let leftIn := input.getD 0 []
  let rightIn := if 1 < input.length then input.getD 1 [] else input.getD 0 []
  let rate := paramValue parameters.rate 1
  let tempo := paramValue parameters.tempo 1
  let pitch := paramValue parameters.pitch 1
  let pitchSemitones := paramValue parameters.pitchSemitones 0
  let pipe1 :=
    ((p.pipe.setRate rate).setTempo tempo).setPitch (pitch * pow2 (pitchSemitones / 12))
  let inIl := interleaveInto p.inputInterleaved leftIn rightIn
  let pipe2 :=
    { pipe1 with inputBuffer := pipe1.inputBuffer.putSamples inIl 0 (leftIn.length : ℤ) }
  let pipe3 := pipe2.process
  let outIl0 := List.replicate p.outputInterleaved.length (Samp.fin 0)
  let rs := pipe3.outputBuffer.receiveSamples outIl0 (output.getD 0 []).length
  let pipe4 := { pipe3 with outputBuffer := rs.1 }
  let outIl := rs.2
  let bus := outWriteLoop output outIl lIdx rIdx (output.getD 0 []).length
  ({ pipe := pipe4, inputInterleaved := inIl, outputInterleaved := outIl }, bus, true)

/-- The branch structure of `process`: bail out with `false` when the
output bus is absent or empty, write silence and return `true` when the
input bus is absent or empty, and otherwise run the main body. -/
def process (pow2 : ℚ → ℚ) (p : SoundTouchProcessor)
    (inputs outputs : List (List (List Samp))) (parameters : WorkletParams) :
    SoundTouchProcessor × List (List Samp) × Bool :=
  let input := inputs.getD 0 []
  let output := outputs.getD 0 []
  if output.length = 0 then (p, output, false)
  else
    let lIdx : ℕ := 0
    let rIdx : ℕ := if 1 < output.length then 1 else 0
    if input.length = 0 then (p, busFill0 output lIdx rIdx, true)
    else processMain pow2 p input output parameters

end SoundTouchProcessor

theorem jsSet_length (src : List Samp) : ∀ (dst : List Samp) (off : ℕ),
    (jsSet dst src off).length = dst.length := by
  induction src with
  | nil => intro dst off; rfl
  | cons x xs ih => intro dst off; simp only [jsSet, setN, ih, List.length_set]

theorem jsSet_spec (src : List Samp) : ∀ (dst : List Samp) (off : ℕ),
    off + src.length ≤ dst.length →
    jsSet dst src off = dst.take off ++ src ++ dst.drop (off + src.length) := by
  induction src with
  | nil => intro dst off _; simp [jsSet]
  | cons x xs ih =>
    intro dst off h
    simp only [List.length_cons] at h
    have hoff : off < dst.length := by omega
    have hlen : (setN dst off x).length = dst.length := by
      simp [setN, List.length_set]
    rw [jsSet, ih (setN dst off x) (off + 1) (by omega)]
    unfold setN
    rw [List.set_eq_take_cons_drop x hoff]
    have hta : (dst.take off).length = off := by
      simp [List.length_take]; omega
    have h1 : (dst.take off ++ x :: dst.drop (off + 1)).take (off + 1)
        = dst.take off ++ [x] := by
      rw [show off + 1 = (dst.take off).length + 1 by rw [hta]]
      rw [List.take_append]
      rfl
    have h2 : (dst.take off ++ x :: dst.drop (off + 1)).drop (off + 1 + xs.length)
        = dst.drop (off + (xs.length + 1)) := by
      rw [show off + 1 + xs.length = (dst.take off).length + (1 + xs.length) by
        simp only [hta]; omega]
      rw [List.drop_append]
      show List.drop (1 + xs.length) (x :: dst.drop (off + 1)) = _
      rw [show 1 + xs.length = xs.length + 1 by omega]
      show List.drop xs.length (dst.drop (off + 1)) = _
      rw [List.drop_drop]
      congr 1
      omega
    rw [h1, h2]
    simp

theorem jsSub_natCast (v : List Samp) (b e : ℕ) :
    jsSub v (b : ℤ) (e : ℤ) = (v.take e).drop b := by
  unfold jsSub
  have hb : ¬ ((b : ℤ) < 0) := by omega
  have he : ¬ ((e : ℤ) < 0) := by omega
  simp only [hb, he, if_false, Int.toNat_natCast]
  have h1 : v.take (min e v.length) = v.take e := by
    rcases le_total e v.length with h | h
    · rw [min_eq_left h]
    · rw [min_eq_right h, List.take_length, List.take_of_length_le h]
  rw [h1]
  rcases le_total b v.length with h | h
  · rw [min_eq_left h]
  · rw [min_eq_right h]
    rw [List.drop_of_length_le (by simp only [List.length_take]; omega),
      List.drop_of_length_le (by simp only [List.length_take]; omega)]

namespace FifoSampleBuffer

theorem content_length (f : FifoSampleBuffer) (h : f.Inv) :
    f.content.length = f.frameCount * CHANNELS := by
  unfold content
  simp only [List.length_drop, List.length_take]
  unfold Inv at h
  unfold startIndex endIndex at *
  simp [CHANNELS] at *
  omega

theorem content_eq_drop_take (f : FifoSampleBuffer) :
    f.content = (f.vector.drop f.startIndex).take (f.frameCount * CHANNELS) := by
  unfold content
  rw [List.drop_take]
  congr 1
  unfold startIndex endIndex
  simp only [CHANNELS]
  omega

theorem rewind_spec (f : FifoSampleBuffer) (h : f.Inv) :
    f.rewind.positionFrames = 0 ∧ f.rewind.frameCount = f.frameCount ∧
    f.rewind.vector.length = f.vector.length ∧ f.rewind.Inv ∧
    f.rewind.content = f.content := by
  by_cases hp : f.positionFrames = 0
  · have hr : f.rewind = f := by unfold rewind; rw [if_pos hp]
    rw [hr]
    exact ⟨hp, rfl, rfl, h, rfl⟩
  · have hr : f.rewind =
        { vector := jsCopyWithin f.vector 0 f.startIndex f.endIndex
          positionFrames := 0
          frameCount := f.frameCount } := by
      unfold rewind; rw [if_neg hp]
    rw [hr]
    unfold Inv at h
    have hse : f.startIndex ≤ f.endIndex := by
      unfold startIndex endIndex; simp only [CHANNELS]; omega
    have hsub : jsSub f.vector (f.startIndex : ℤ) (f.endIndex : ℤ) = f.content := by
      rw [jsSub_natCast]; rfl
    have hclen : f.content.length = f.frameCount * CHANNELS := content_length f h
    have hle : 0 + f.content.length ≤ f.vector.length := by
      unfold endIndex at h
      unfold startIndex endIndex at *
      simp [CHANNELS] at *
      omega
    have hset : jsCopyWithin f.vector 0 (f.startIndex : ℤ) (f.endIndex : ℤ)
        = f.content ++ f.vector.drop f.content.length := by
      unfold jsCopyWithin
      rw [hsub, jsSet_spec _ _ _ hle]
      simp
    refine ⟨rfl, rfl, ?_, ?_, ?_⟩
    · show (jsCopyWithin f.vector 0 (f.startIndex : ℤ) (f.endIndex : ℤ)).length = _
      unfold jsCopyWithin
      rw [jsSet_length]
    · show FifoSampleBuffer.Inv ⟨jsCopyWithin f.vector 0 _ _, 0, f.frameCount⟩
      unfold Inv
      show (0 + f.frameCount) * CHANNELS ≤ _
      rw [hset]
      simp only [List.length_append, hclen, Nat.zero_add]
      omega
    · show ((jsCopyWithin f.vector 0 _ _).take ((0 + f.frameCount) * CHANNELS)).drop (0 * CHANNELS) = _
      rw [hset]
      simp only [Nat.zero_add, Nat.zero_mul, List.drop_zero]
      rw [← hclen, List.take_left]

theorem ensureCapacity_spec (f : FifoSampleBuffer) (n : ℚ) (h : f.Inv)
    (hn : (f.frameCount : ℚ) ≤ n) :
    (f.ensureCapacity n).positionFrames = 0 ∧
    (f.ensureCapacity n).frameCount = f.frameCount ∧
    (f.ensureCapacity n).Inv ∧
    (f.ensureCapacity n).content = f.content ∧
    (max 0 ⌈n * (CHANNELS : ℚ)⌉).toNat ≤ (f.ensureCapacity n).vector.length := by
  have hclen : f.content.length = f.frameCount * CHANNELS := content_length f h
  have hcap : f.frameCount * CHANNELS ≤ (max 0 ⌈n * (CHANNELS : ℚ)⌉).toNat := by
    have h1 : ((f.frameCount * CHANNELS : ℕ) : ℤ) ≤ ⌈n * (CHANNELS : ℚ)⌉ := by
      have h2 : ((f.frameCount * CHANNELS : ℕ) : ℚ) ≤ n * (CHANNELS : ℚ) := by
        push_cast
        have : (0 : ℚ) ≤ (CHANNELS : ℚ) := by positivity
        nlinarith
      calc ((f.frameCount * CHANNELS : ℕ) : ℤ) ≤ ⌈((f.frameCount * CHANNELS : ℕ) : ℚ)⌉ := by
            rw [Int.ceil_natCast]
        _ ≤ ⌈n * (CHANNELS : ℚ)⌉ := Int.ceil_le_ceil h2
    omega
  by_cases hb : f.vector.length < (max 0 ⌈n * (CHANNELS : ℚ)⌉).toNat
  · have he : f.ensureCapacity n =
        { vector := jsSet (List.replicate (max 0 ⌈n * (CHANNELS : ℚ)⌉).toNat (Samp.fin 0))
            (jsSub f.vector f.startIndex f.endIndex) 0
          positionFrames := 0
          frameCount := f.frameCount } := by
      unfold ensureCapacity
      rw [if_pos hb]
    rw [he]
    have hsub : jsSub f.vector (f.startIndex : ℤ) (f.endIndex : ℤ) = f.content := by
      rw [jsSub_natCast]; rfl
    have hle : 0 + f.content.length ≤
        (List.replicate (max 0 ⌈n * (CHANNELS : ℚ)⌉).toNat (Samp.fin 0)).length := by
      simp only [List.length_replicate, hclen, Nat.zero_add]
      exact hcap
    have hset : jsSet (List.replicate (max 0 ⌈n * (CHANNELS : ℚ)⌉).toNat (Samp.fin 0))
        (jsSub f.vector f.startIndex f.endIndex) 0
        = f.content ++ (List.replicate (max 0 ⌈n * (CHANNELS : ℚ)⌉).toNat
            (Samp.fin 0)).drop f.content.length := by
      rw [hsub, jsSet_spec _ _ _ hle]
      simp
    refine ⟨rfl, rfl, ?_, ?_, ?_⟩
    · unfold Inv
      show (0 + f.frameCount) * CHANNELS ≤ _
      rw [hset]
      simp only [List.length_append, hclen, List.length_drop, List.length_replicate,
        Nat.zero_add]
      omega
    · show ((jsSet _ _ _).take ((0 + f.frameCount) * CHANNELS)).drop (0 * CHANNELS) = _
      rw [hset]
      simp only [Nat.zero_add, Nat.zero_mul, List.drop_zero]
      rw [← hclen, List.take_left]
    · show _ ≤ (jsSet _ _ _).length
      rw [jsSet_length]
      simp only [List.length_replicate]
      exact le_refl _
  · have he : f.ensureCapacity n = f.rewind := by
      unfold ensureCapacity
      rw [if_neg hb]
    rw [he]
    obtain ⟨h1, h2, h3, h4, h5⟩ := rewind_spec f h
    exact ⟨h1, h2, h4, h5, by rw [h3]; omega⟩

theorem putSamples_exact_spec (f : FifoSampleBuffer) (xs : List Samp) (n : ℕ)
    (h : f.Inv) (hlen : xs.length = n * CHANNELS) :
    (f.putSamples xs 0 (n : ℤ)).Inv ∧
    (f.putSamples xs 0 (n : ℤ)).frameCount = f.frameCount + n ∧
    (f.putSamples xs 0 (n : ℤ)).content = f.content ++ xs ∧
    (f.putSamples xs 0 (n : ℤ)).positionFrames = 0 := by
  have hframes : (if (0 : ℤ) ≤ (n : ℤ) then (n : ℤ)
      else ((xs.length : ℤ) - 0 * (CHANNELS : ℤ)).fdiv (CHANNELS : ℤ)).toNat = n := by
    rw [if_pos (by omega)]
    exact Int.toNat_natCast n
  have hq : (f.frameCount : ℚ) ≤ (f.frameCount : ℚ) + (n : ℚ) :=
    le_add_of_nonneg_right (by positivity)
  obtain ⟨e1, e2, e3, e4, e5⟩ := ensureCapacity_spec f ((f.frameCount : ℚ) + (n : ℚ)) h hq
  set f1 := f.ensureCapacity ((f.frameCount : ℚ) + (n : ℚ)) with hf1
  have hcap : (f.frameCount + n) * CHANNELS ≤ f1.vector.length := by
    have h1 : (((f.frameCount + n) * CHANNELS : ℕ) : ℤ) ≤
        ⌈((f.frameCount : ℚ) + (n : ℚ)) * (CHANNELS : ℚ)⌉ := by
      have h2 : (((f.frameCount + n) * CHANNELS : ℕ) : ℚ) =
          ((f.frameCount : ℚ) + (n : ℚ)) * (CHANNELS : ℚ) := by push_cast; ring
      calc (((f.frameCount + n) * CHANNELS : ℕ) : ℤ)
          = ⌈(((f.frameCount + n) * CHANNELS : ℕ) : ℚ)⌉ := by rw [Int.ceil_natCast]
        _ ≤ _ := by rw [h2]
    omega
  have hsub : jsSub xs (0 * (CHANNELS : ℤ)) (0 * (CHANNELS : ℤ) + (n : ℤ) * (CHANNELS : ℤ))
      = xs := by
    rw [show (0 * (CHANNELS : ℤ) + (n : ℤ) * (CHANNELS : ℤ)) = ((n * CHANNELS : ℕ) : ℤ) from by
      push_cast; ring]
    rw [show (0 * (CHANNELS : ℤ)) = ((0 : ℕ) : ℤ) from by norm_num]
    rw [jsSub_natCast]
    simp [List.take_of_length_le, hlen]
  have hclen1 : f1.content.length = f.frameCount * CHANNELS := by
    rw [e4]; exact content_length f h
  have hEnd1 : f1.endIndex = f.frameCount * CHANNELS := by
    unfold endIndex
    rw [e1, e2, Nat.zero_add]
  have hle : f1.endIndex + xs.length ≤ f1.vector.length := by
    rw [hEnd1, hlen]
    calc f.frameCount * CHANNELS + n * CHANNELS = (f.frameCount + n) * CHANNELS := by ring
      _ ≤ f1.vector.length := hcap
  have hcontent1 : f1.content = f1.vector.take (f.frameCount * CHANNELS) := by
    unfold content
    rw [hEnd1]
    unfold startIndex
    rw [e1]
    simp
  have hset : jsSet f1.vector xs f1.endIndex
      = f1.content ++ xs ++ f1.vector.drop (f1.endIndex + xs.length) := by
    rw [jsSet_spec _ _ _ hle, hcontent1, hEnd1]
  have hvec : (f.putSamples xs 0 (n : ℤ)).vector
      = f1.content ++ xs ++ f1.vector.drop (f1.endIndex + xs.length) := by
    unfold putSamples
    simp only [hframes, ← hf1, hsub]
    exact hset
  have hpos : (f.putSamples xs 0 (n : ℤ)).positionFrames = 0 := by
    unfold putSamples
    simp only [hframes, ← hf1]
    exact e1
  have hfc : (f.putSamples xs 0 (n : ℤ)).frameCount = f.frameCount + n := by
    unfold putSamples
    simp only [hframes, ← hf1]
    rw [e2]
  have hlenv : (f.putSamples xs 0 (n : ℤ)).vector.length = f1.vector.length := by
    unfold putSamples
    simp only [hframes, ← hf1]
    rw [jsSet_length]
  have hl : (f1.content ++ xs).length = (f.frameCount + n) * CHANNELS := by
    simp only [List.length_append, hclen1, hlen]
    ring
  have htk : List.take ((f.frameCount + n) * CHANNELS)
      ((f1.content ++ xs) ++ f1.vector.drop (f1.endIndex + xs.length))
      = f1.content ++ xs := by
    rw [List.take_append_of_le_length (le_of_eq hl.symm)]
    exact List.take_of_length_le (le_of_eq hl)
  rcases hE : f.putSamples xs 0 (n : ℤ) with ⟨v, p, c⟩
  rw [hE] at hvec hpos hfc hlenv
  simp only at hvec hpos hfc hlenv
  subst hvec hpos hfc
  refine ⟨?_, rfl, ?_, rfl⟩
  · unfold Inv endIndex
    show (0 + (f.frameCount + n)) * CHANNELS
        ≤ (f1.content ++ xs ++ List.drop (f1.endIndex + xs.length) f1.vector).length
    rw [Nat.zero_add, hlenv]
    exact hcap
  · unfold content startIndex endIndex
    show (List.take ((0 + (f.frameCount + n)) * CHANNELS)
        (f1.content ++ xs ++ List.drop (f1.endIndex + xs.length) f1.vector)).drop (0 * CHANNELS)
        = f.content ++ xs
    rw [Nat.zero_add, Nat.zero_mul, List.drop_zero, htk, e4]

theorem receive_frames (f : FifoSampleBuffer) (k : ℤ) :
    (f.receive k).positionFrames = f.positionFrames + (min (max k 0) (f.frameCount : ℤ)).toNat ∧
    (f.receive k).frameCount = f.frameCount - (min (max k 0) (f.frameCount : ℤ)).toNat ∧
    (f.receive k).vector = f.vector := by
  unfold receive
  exact ⟨rfl, rfl, rfl⟩

theorem receive_Inv (f : FifoSampleBuffer) (k : ℤ) (h : f.Inv) : (f.receive k).Inv := by
  obtain ⟨h1, h2, h3⟩ := receive_frames f k
  unfold Inv at *
  unfold endIndex at *
  rw [h1, h2, h3]
  have : (min (max k 0) (f.frameCount : ℤ)).toNat ≤ f.frameCount := by omega
  calc (f.positionFrames + (min (max k 0) (f.frameCount : ℤ)).toNat +
          (f.frameCount - (min (max k 0) (f.frameCount : ℤ)).toNat)) * CHANNELS
      = (f.positionFrames + f.frameCount) * CHANNELS := by
        congr 1
        omega
    _ ≤ f.vector.length := h

theorem receive_spec (f : FifoSampleBuffer) (k : ℕ) (h : f.Inv) (hk : k ≤ f.frameCount) :
    (f.receive (k : ℤ)).Inv ∧
    (f.receive (k : ℤ)).frameCount = f.frameCount - k ∧
    (f.receive (k : ℤ)).positionFrames = f.positionFrames + k ∧
    (f.receive (k : ℤ)).content = f.content.drop (k * CHANNELS) := by
  have hclamp : (min (max (k : ℤ) 0) (f.frameCount : ℤ)).toNat = k := by omega
  obtain ⟨h1, h2, h3⟩ := receive_frames f (k : ℤ)
  rw [hclamp] at h1 h2
  refine ⟨receive_Inv f (k : ℤ) h, h2, h1, ?_⟩
  unfold content startIndex endIndex
  rw [h1, h2, h3]
  have he : (f.positionFrames + k + (f.frameCount - k)) * CHANNELS
      = (f.positionFrames + f.frameCount) * CHANNELS := by
    congr 1
    omega
  rw [he]
  rw [List.drop_drop]
  congr 1
  simp [CHANNELS]
  ring

theorem extract_spec (f : FifoSampleBuffer) (out : List Samp) (off k : ℕ)
    (h : f.Inv) (hv : off + k ≤ f.frameCount) (ho : out.length = k * CHANNELS) :
    f.extract out off k = (f.content.drop (off * CHANNELS)).take (k * CHANNELS) := by
  unfold extract
  have hb : f.startIndex + off * CHANNELS = ((f.positionFrames + off) * CHANNELS : ℕ) := by
    unfold startIndex
    ring
  have he : f.startIndex + off * CHANNELS + k * CHANNELS
      = ((f.positionFrames + off + k) * CHANNELS : ℕ) := by
    unfold startIndex
    ring
  have hcast : ((f.startIndex + off * CHANNELS : ℕ) : ℤ) + (k : ℤ) * (CHANNELS : ℤ)
      = ((f.startIndex + off * CHANNELS + k * CHANNELS : ℕ) : ℤ) := by push_cast; ring
  show jsSet out (jsSub f.vector ((f.startIndex + off * CHANNELS : ℕ) : ℤ)
      (((f.startIndex + off * CHANNELS : ℕ) : ℤ) + (k : ℤ) * (CHANNELS : ℤ))) 0 = _
  rw [hcast, jsSub_natCast]
  have hinside : (f.vector.take (f.startIndex + off * CHANNELS + k * CHANNELS)).drop
      (f.startIndex + off * CHANNELS)
      = (f.content.drop (off * CHANNELS)).take (k * CHANNELS) := by
    have hL : (f.vector.take (f.startIndex + off * CHANNELS + k * CHANNELS)).drop
        (f.startIndex + off * CHANNELS)
        = (f.vector.drop (f.startIndex + off * CHANNELS)).take (k * CHANNELS) := by
      rw [List.drop_take]
      congr 1
      simp only [CHANNELS]
      omega
    have hR : (f.content.drop (off * CHANNELS)).take (k * CHANNELS)
        = (f.vector.drop (f.startIndex + off * CHANNELS)).take (k * CHANNELS) := by
      rw [content_eq_drop_take, List.drop_take, List.drop_drop, List.take_take]
      congr 1
      simp only [CHANNELS]
      omega
    rw [hL, hR]
  rw [hinside]
  have hslen : ((f.content.drop (off * CHANNELS)).take (k * CHANNELS)).length = out.length := by
    rw [ho]
    simp only [List.length_take, List.length_drop]
    rw [content_length f h]
    simp only [CHANNELS]
    omega
  rw [jsSet_spec _ _ _ (by rw [hslen]; omega)]
  simp [List.drop_of_length_le, hslen]

end FifoSampleBuffer

namespace FifoOp

theorem applyOps_spec (ops : List FifoOp) : ∀ (f : FifoSampleBuffer), f.Inv → Valid f ops →
    (applyOps f ops).Inv ∧
    (applyOps f ops).frameCount + totalReceived ops = f.frameCount + totalPut ops ∧
    (applyOps f ops).content
      = (f.content ++ putConcat ops).drop (totalReceived ops * CHANNELS) := by
  induction ops with
  | nil =>
    intro f h _
    refine ⟨h, by simp [applyOps, totalReceived, totalPut], ?_⟩
    simp [applyOps, putConcat, totalReceived]
  | cons op rest ih =>
    intro f h hv
    cases op with
    | putOp xs =>
      obtain ⟨hdvd, hv'⟩ := hv
      have hlen : xs.length = (xs.length / CHANNELS) * CHANNELS :=
        (Nat.div_mul_cancel hdvd).symm
      obtain ⟨p1, p2, p3, p4⟩ :=
        FifoSampleBuffer.putSamples_exact_spec f xs (xs.length / CHANNELS) h hlen
      obtain ⟨q1, q2, q3⟩ := ih (apply f (.putOp xs)) p1 hv'
      refine ⟨q1, ?_, ?_⟩
      · show (applyOps (apply f (.putOp xs)) rest).frameCount + totalReceived rest
            = f.frameCount + (xs.length / CHANNELS + totalPut rest)
        have : (apply f (.putOp xs)).frameCount = f.frameCount + xs.length / CHANNELS := p2
        omega
      · show (applyOps (apply f (.putOp xs)) rest).content
            = (f.content ++ (xs ++ putConcat rest)).drop (totalReceived rest * CHANNELS)
        rw [q3]
        show ((apply f (.putOp xs)).content ++ putConcat rest).drop _ = _
        rw [show (apply f (.putOp xs)).content = f.content ++ xs from p3]
        rw [List.append_assoc]
    | recvOp n =>
      obtain ⟨hn, hv'⟩ := hv
      obtain ⟨p1, p2, p3, p4⟩ := FifoSampleBuffer.receive_spec f n h hn
      obtain ⟨q1, q2, q3⟩ := ih (apply f (.recvOp n)) p1 hv'
      have hclen : f.content.length = f.frameCount * CHANNELS := f.content_length h
      refine ⟨q1, ?_, ?_⟩
      · show (applyOps (apply f (.recvOp n)) rest).frameCount + (n + totalReceived rest)
            = f.frameCount + totalPut rest
        have : (apply f (.recvOp n)).frameCount = f.frameCount - n := p2
        omega
      · show (applyOps (apply f (.recvOp n)) rest).content
            = (f.content ++ putConcat rest).drop ((n + totalReceived rest) * CHANNELS)
        rw [q3]
        rw [show (apply f (.recvOp n)).content = f.content.drop (n * CHANNELS) from p4]
        rw [← List.drop_append_of_le_length (by rw [hclen]; simp only [CHANNELS]; omega)]
        rw [List.drop_drop]
        congr 1
        ring

end FifoOp

section ConcreteEvaluation

attribute [local semireducible] Rat.add Rat.mul Rat.sub Rat.inv

/-- C1 (code bug evidence): `receiveSamples` can write stale storage into
`output` beyond the valid `frameCount` frames, contradicting its own doc
comment and the specification.  After `putSamples` of frames
`[1,2],[3,4],[5,6]`, `receive(2)`, `putSamples` of `[7,8]` (which rewinds
the storage, leaving a stale copy of `[5,6]` past the valid end) and
`receive(2)`, the FIFO holds zero valid frames, yet
`receiveSamples(output, 1)` overwrites the pre-zeroed `output` with the
stale frame `[5,6]` instead of leaving it untouched. -/
theorem C1_receiveSamples_writes_stale_storage :
    (((((FifoSampleBuffer.empty.putSamples
        [Samp.fin 1, Samp.fin 2, Samp.fin 3, Samp.fin 4, Samp.fin 5, Samp.fin 6]
        0 (-1)).receive 2).putSamples
        [Samp.fin 7, Samp.fin 8] 0 (-1)).receive 2)).frameCount = 0 ∧
    (((((FifoSampleBuffer.empty.putSamples
        [Samp.fin 1, Samp.fin 2, Samp.fin 3, Samp.fin 4, Samp.fin 5, Samp.fin 6]
        0 (-1)).receive 2).putSamples
        [Samp.fin 7, Samp.fin 8] 0 (-1)).receive 2)).receiveSamples
        [Samp.fin 0, Samp.fin 0] 1
      = ((((((FifoSampleBuffer.empty.putSamples
        [Samp.fin 1, Samp.fin 2, Samp.fin 3, Samp.fin 4, Samp.fin 5, Samp.fin 6]
        0 (-1)).receive 2).putSamples
        [Samp.fin 7, Samp.fin 8] 0 (-1)).receive 2)),
        [Samp.fin 5, Samp.fin 6]) := by
  constructor
  · decide
  · decide

/-- C6: FIFO algebra.  For every valid `putSamples`/`receive` history
starting from a fresh FIFO, the final `frameCount` equals total frames put
minus total frames received, and `extract` at any valid offset within the
valid window returns exactly the corresponding slice of the samples
written by `putSamples`. -/
theorem C6_fifo_algebra (ops : List FifoOp)
    (hv : FifoOp.Valid FifoSampleBuffer.empty ops) :
    (FifoOp.applyOps FifoSampleBuffer.empty ops).frameCount + FifoOp.totalReceived ops
      = FifoOp.totalPut ops ∧
    ∀ (off k : ℕ) (out : List Samp),
      off + k ≤ (FifoOp.applyOps FifoSampleBuffer.empty ops).frameCount →
      out.length = k * CHANNELS →
      (FifoOp.applyOps FifoSampleBuffer.empty ops).extract out off k
        = ((FifoOp.putConcat ops).drop
            ((FifoOp.totalReceived ops + off) * CHANNELS)).take (k * CHANNELS) := by
  obtain ⟨q1, q2, q3⟩ := FifoOp.applyOps_spec ops FifoSampleBuffer.empty (by decide) hv
  constructor
  · have : FifoSampleBuffer.empty.frameCount = 0 := rfl
    omega
  · intro off k out hoff ho
    rw [FifoSampleBuffer.extract_spec _ out off k q1 hoff ho, q3]
    have hempty : FifoSampleBuffer.empty.content = [] := rfl
    rw [hempty, List.nil_append, List.drop_drop]
    congr 2
    ring

/-- Witness for C6 at a concrete valid history. -/
theorem C6_fifo_algebra_witness :
    FifoOp.Valid FifoSampleBuffer.empty
      [FifoOp.putOp [Samp.fin 1, Samp.fin 2, Samp.fin 3, Samp.fin 4], FifoOp.recvOp 1] ∧
    (FifoOp.applyOps FifoSampleBuffer.empty
      [FifoOp.putOp [Samp.fin 1, Samp.fin 2, Samp.fin 3, Samp.fin 4], FifoOp.recvOp 1]).extract
        [Samp.fin 0, Samp.fin 0] 0 1
      = ((FifoOp.putConcat
          [FifoOp.putOp [Samp.fin 1, Samp.fin 2, Samp.fin 3, Samp.fin 4], FifoOp.recvOp 1]).drop
            ((FifoOp.totalReceived
              [FifoOp.putOp [Samp.fin 1, Samp.fin 2, Samp.fin 3, Samp.fin 4], FifoOp.recvOp 1] + 0)
              * CHANNELS)).take (1 * CHANNELS) := by
  constructor
  · decide
  · exact (C6_fifo_algebra
      [FifoOp.putOp [Samp.fin 1, Samp.fin 2, Samp.fin 3, Samp.fin 4], FifoOp.recvOp 1]
      (by decide)).2 0 1 [Samp.fin 0, Samp.fin 0] (by decide) (by decide)

end ConcreteEvaluation

namespace RateTransposer

theorem transposeFirst_spec (r : ℚ) (pL pR : Samp) (src : List Samp)
    (so dof fuel : ℕ) : ∀ (s : ℚ) (out : ℕ) (dest : List Samp),
    ∃ a : ℕ,
      (transposeFirst r pL pR src so dof fuel s out dest).2.1 = out + a ∧
      (transposeFirst r pL pR src so dof fuel s out dest).1 = s + (a : ℚ) * r ∧
      (transposeFirst r pL pR src so dof fuel s out dest).2.2.length = dest.length ∧
      (1 ≤ a → s + ((a : ℚ) - 1) * r < 1) := by
  induction fuel with
  | zero =>
    intro s out dest
    refine ⟨0, rfl, ?_, rfl, fun h => absurd h (by omega)⟩
    show s = s + ((0 : ℕ) : ℚ) * r
    push_cast
    ring
  | succ fuel ih =>
    intro s out dest
    by_cases hs : s < 1
    · rw [transposeFirst, if_pos hs]
      obtain ⟨a, h1, h2, h3, h4⟩ := ih (s + r) (out + 1)
        (setN (setN dest (dof + CHANNELS * out)
          (((Samp.fin (1 - s)).mul pL).add ((Samp.fin s).mul (getN src so))))
          (dof + CHANNELS * out + 1)
          (((Samp.fin (1 - s)).mul pR).add ((Samp.fin s).mul (getN src (so + 1)))))
      refine ⟨a + 1, ?_, ?_, ?_, ?_⟩
      · rw [h1]; omega
      · rw [h2]; push_cast; ring
      · rw [h3]; simp [setN, List.length_set]
      · intro _
        push_cast
        rcases Nat.eq_zero_or_pos a with ha | ha
        · subst ha
          push_cast
          rw [show s + (0 + 1 - 1) * r = s from by ring]
          exact hs
        · have h4a := h4 ha
          rw [show s + ((a : ℚ) + 1 - 1) * r = (s + r) + ((a : ℚ) - 1) * r from by ring]
          exact h4a
    · rw [transposeFirst, if_neg hs]
      refine ⟨0, rfl, ?_, rfl, fun h => absurd h (by omega)⟩
      show s = s + ((0 : ℕ) : ℚ) * r
      push_cast
      ring

theorem transposeSecond_spec (r : ℚ) (nf : ℕ) (src : List Samp)
    (so dof fuel : ℕ) (hnf : 2 ≤ nf) : ∀ (s : ℚ) (used out : ℕ) (dest : List Samp),
    used ≤ nf - 2 →
    ∃ (b d : ℕ),
      (transposeSecond r nf src so dof fuel s used out dest).2.2.1 = out + b ∧
      (transposeSecond r nf src so dof fuel s used out dest).2.1 = used + d ∧
      used + d ≤ nf - 1 ∧
      (transposeSecond r nf src so dof fuel s used out dest).2.2.2.length = dest.length ∧
      (1 ≤ b → s + ((b : ℚ) - 1) * r ≤ 1 + ((nf - 2 - used : ℕ) : ℚ)) := by
  induction fuel with
  | zero =>
    intro s used out dest hu
    exact ⟨0, 0, rfl, rfl, by omega, rfl, fun h => absurd h (by omega)⟩
  | succ fuel ih =>
    intro s used out dest hu
    by_cases hs : 1 < s
    · rw [transposeSecond, if_pos hs]
      by_cases hbreak : nf - 1 ≤ used + 1
      · rw [if_pos hbreak]
        exact ⟨0, 1, rfl, rfl, by omega, rfl, fun h => absurd h (by omega)⟩
      · rw [if_neg hbreak]
        obtain ⟨b, d, h1, h2, h3, h4, h5⟩ := ih (s - 1) (used + 1) out dest (by omega)
        refine ⟨b, d + 1, h1, by rw [h2]; omega, by omega, h4, ?_⟩
        intro hb
        have := h5 hb
        have hc : ((nf - 2 - (used + 1) : ℕ) : ℚ) + 1 = ((nf - 2 - used : ℕ) : ℚ) := by
          have : nf - 2 - (used + 1) + 1 = nf - 2 - used := by omega
          rw [← this]
          push_cast
          ring
        calc s + ((b : ℚ) - 1) * r = (s - 1) + ((b : ℚ) - 1) * r + 1 := by ring
          _ ≤ 1 + ((nf - 2 - (used + 1) : ℕ) : ℚ) + 1 := by linarith
          _ = 1 + ((nf - 2 - used : ℕ) : ℚ) := by rw [← hc]; ring
    · rw [transposeSecond, if_neg hs]
      obtain ⟨b, d, h1, h2, h3, h4, h5⟩ := ih (s + r) used (out + 1)
        (setN (setN dest (dof + CHANNELS * out)
          (((Samp.fin (1 - s)).mul (getN src (so + CHANNELS * used))).add
            ((Samp.fin s).mul (getN src (so + CHANNELS * used + 2)))))
          (dof + CHANNELS * out + 1)
          (((Samp.fin (1 - s)).mul (getN src (so + CHANNELS * used + 1))).add
            ((Samp.fin s).mul (getN src (so + CHANNELS * used + 3)))))
        hu
      refine ⟨b + 1, d, by rw [h1]; omega, h2, h3, ?_, ?_⟩
      · rw [h4]; simp [setN, List.length_set]
      · intro _
        push_cast
        rcases Nat.eq_zero_or_pos b with hb | hb
        · subst hb
          push_cast
          have hnn : (0 : ℚ) ≤ ((nf - 2 - used : ℕ) : ℚ) := by positivity
          rw [show s + (0 + 1 - 1) * r = s from by ring]
          linarith [le_of_not_lt hs]
        · have h5b := h5 hb
          rw [show s + ((b : ℚ) + 1 - 1) * r = (s + r) + ((b : ℚ) - 1) * r from by ring]
          exact h5b

end RateTransposer

namespace RateTransposer

theorem transpose_length (t : RateTransposer) (nf : ℕ) (src : List Samp)
    (so : ℕ) (dest : List Samp) (dof : ℕ) :
    (t.transpose nf src so dest dof).2.2.length = dest.length := by
  by_cases h0 : nf = 0
  · rw [transpose, if_pos h0]
  · rw [transpose, if_neg h0]
    simp only []
    obtain ⟨a, ha1, ha2, ha3, ha4⟩ := transposeFirst_spec t.rate t.prevSampleL t.prevSampleR
      src so dof (transposeFuelFirst t.rate t.slopeCount) t.slopeCount 0 dest
    by_cases h1 : nf = 1
    · simp only [h1, ne_eq, not_true_eq_false, if_false]
      exact ha3
    · simp only [ne_eq, h1, not_false_eq_true, if_true]
      have hnf : 2 ≤ nf := by omega
      obtain ⟨b, d, hb1, hb2, hb3, hb4, hb5⟩ := transposeSecond_spec t.rate nf src so dof
        (transposeFuelSecond t.rate nf) hnf
        ((transposeFirst t.rate t.prevSampleL t.prevSampleR src so dof
          (transposeFuelFirst t.rate t.slopeCount) t.slopeCount 0 dest).1 - 1) 0
        ((transposeFirst t.rate t.prevSampleL t.prevSampleR src so dof
          (transposeFuelFirst t.rate t.slopeCount) t.slopeCount 0 dest).2.1)
        ((transposeFirst t.rate t.prevSampleL t.prevSampleR src so dof
          (transposeFuelFirst t.rate t.slopeCount) t.slopeCount 0 dest).2.2)
        (by omega)
      rw [hb4, ha3]

theorem transpose_bound (t : RateTransposer) (nf : ℕ) (src : List Samp)
    (so : ℕ) (dest : List Samp) (dof : ℕ)
    (hr : 0 < t.rate) (hs : 0 ≤ t.slopeCount) :
    (((t.transpose nf src so dest dof).2.1 : ℕ) : ℚ) * t.rate ≤ (nf : ℚ) + t.rate := by
  by_cases h0 : nf = 0
  · rw [transpose, if_pos h0]
    show ((0 : ℕ) : ℚ) * t.rate ≤ (nf : ℚ) + t.rate
    push_cast
    have hnn : (0 : ℚ) ≤ (nf : ℚ) := Nat.cast_nonneg nf
    linarith
  · rw [transpose, if_neg h0]
    simp only []
    obtain ⟨a, ha1, ha2, ha3, ha4⟩ := transposeFirst_spec t.rate t.prevSampleL t.prevSampleR
      src so dof (transposeFuelFirst t.rate t.slopeCount) t.slopeCount 0 dest
    have hnf1 : (1 : ℚ) ≤ (nf : ℚ) := by
      have : 1 ≤ nf := by omega
      exact_mod_cast this
    have haR : ((a : ℕ) : ℚ) * t.rate ≤ 1 + t.rate := by
      rcases Nat.eq_zero_or_pos a with hz | hp
      · subst hz
        push_cast
        linarith
      · have := ha4 hp
        nlinarith
    by_cases h1 : nf = 1
    · simp only [h1, ne_eq, not_true_eq_false, if_false]
      show (((transposeFirst t.rate t.prevSampleL t.prevSampleR src so dof
        (transposeFuelFirst t.rate t.slopeCount) t.slopeCount 0 dest).2.1 : ℕ) : ℚ) * t.rate
        ≤ ((1 : ℕ) : ℚ) + t.rate
      rw [ha1]
      push_cast
      push_cast at haR
      linarith
    · simp only [ne_eq, h1, not_false_eq_true, if_true]
      have hnf : 2 ≤ nf := by omega
      obtain ⟨b, d, hb1, hb2, hb3, hb4, hb5⟩ := transposeSecond_spec t.rate nf src so dof
        (transposeFuelSecond t.rate nf) hnf
        ((transposeFirst t.rate t.prevSampleL t.prevSampleR src so dof
          (transposeFuelFirst t.rate t.slopeCount) t.slopeCount 0 dest).1 - 1) 0
        ((transposeFirst t.rate t.prevSampleL t.prevSampleR src so dof
          (transposeFuelFirst t.rate t.slopeCount) t.slopeCount 0 dest).2.1)
        ((transposeFirst t.rate t.prevSampleL t.prevSampleR src so dof
          (transposeFuelFirst t.rate t.slopeCount) t.slopeCount 0 dest).2.2)
        (by omega)
      rw [hb1, ha1]
      have hcast2 : ((nf - 2 - 0 : ℕ) : ℚ) = (nf : ℚ) - 2 := by
        rw [Nat.sub_zero, Nat.cast_sub hnf]
        norm_num
      rcases Nat.eq_zero_or_pos b with hbz | hbp
      · subst hbz
        push_cast
        push_cast at haR
        linarith
      · have hb5b := hb5 hbp
        rw [hcast2, ha2] at hb5b
        push_cast
        nlinarith

end RateTransposer

theorem le_toNat_max_ceil (m : ℕ) (q : ℚ) (h : (m : ℚ) ≤ q) :
    m ≤ (max 0 ⌈q⌉).toNat := by
  have h1 : ((m : ℕ) : ℤ) ≤ ⌈q⌉ := by
    calc ((m : ℕ) : ℤ) = ⌈((m : ℕ) : ℚ)⌉ := (Int.ceil_natCast m).symm
      _ ≤ ⌈q⌉ := Int.ceil_le_ceil h
  omega

namespace FifoSampleBuffer

theorem putSamples_Inv (f : FifoSampleBuffer) (samples : List Samp) (p k : ℤ)
    (h : f.Inv) : (f.putSamples samples p k).Inv := by
  unfold putSamples
  simp only []
  generalize (if 0 ≤ k then k
    else ((samples.length : ℤ) - p * (CHANNELS : ℤ)).fdiv (CHANNELS : ℤ)).toNat = m
  obtain ⟨e1, e2, e3, e4, e5⟩ := ensureCapacity_spec f ((f.frameCount : ℚ) + (m : ℚ)) h
    (le_add_of_nonneg_right (by positivity))
  set f1 := f.ensureCapacity ((f.frameCount : ℚ) + (m : ℚ)) with hf1
  show FifoSampleBuffer.Inv
    ⟨jsSet f1.vector (jsSub samples (p * (CHANNELS : ℤ))
        (p * (CHANNELS : ℤ) + (m : ℤ) * (CHANNELS : ℤ))) f1.endIndex,
      f1.positionFrames, f1.frameCount + m⟩
  unfold Inv endIndex
  show (f1.positionFrames + (f1.frameCount + m)) * CHANNELS ≤ (jsSet _ _ _).length
  rw [jsSet_length, e1, e2, Nat.zero_add]
  calc (f.frameCount + m) * CHANNELS
      ≤ (max 0 ⌈((f.frameCount : ℚ) + (m : ℚ)) * (CHANNELS : ℚ)⌉).toNat := by
        apply le_toNat_max_ceil
        push_cast
        exact le_refl _
    _ ≤ f1.vector.length := e5

theorem putBuffer_Inv (f : FifoSampleBuffer) (buffer : FifoSampleBuffer)
    (p k : ℤ) (h : f.Inv) : (f.putBuffer buffer p k).Inv := by
  unfold putBuffer
  exact putSamples_Inv f buffer.vector _ _ h

theorem receiveSamples_Inv (f : FifoSampleBuffer) (out : List Samp) (k : ℕ)
    (h : f.Inv) : (f.receiveSamples out k).1.Inv := by
  unfold receiveSamples
  exact receive_Inv f (k : ℤ) h

theorem clear_Inv (f : FifoSampleBuffer) (h : f.Inv) : f.clear.Inv := by
  unfold clear
  exact (rewind_spec (f.receive (f.frameCount : ℤ)) (receive_Inv f _ h)).2.2.2.1

theorem put_Inv (f : FifoSampleBuffer) (k : ℕ)
    (hcap : (f.positionFrames + f.frameCount + k) * CHANNELS ≤ f.vector.length) :
    (f.put k).Inv := by
  unfold put Inv endIndex
  show (f.positionFrames + (f.frameCount + k)) * CHANNELS ≤ f.vector.length
  calc (f.positionFrames + (f.frameCount + k)) * CHANNELS
      = (f.positionFrames + f.frameCount + k) * CHANNELS := by ring
    _ ≤ f.vector.length := hcap

end FifoSampleBuffer

namespace RateTransposer

theorem process_spec (t : RateTransposer) (fi fo : FifoSampleBuffer)
    (hr : 0 < t.rate) (hs : 0 ≤ t.slopeCount) (hfi : fi.Inv) (hfo : fo.Inv) :
    (t.process fi fo).2.1.Inv ∧ (t.process fi fo).2.2.Inv := by
  by_cases h0 : fi.frameCount = 0
  · unfold process
    simp only []
    rw [if_pos h0]
    exact ⟨hfi, hfo⟩
  · unfold process
    simp only [FifoSampleBuffer.ensureAdditionalCapacity]
    rw [if_neg h0]
    obtain ⟨e1, e2, e3, e4, e5⟩ := FifoSampleBuffer.ensureCapacity_spec fo
      ((fo.frameCount : ℚ) + ((fi.frameCount : ℚ) / t.rate + 1)) hfo
      (le_add_of_nonneg_right (by positivity))
    set f1 := fo.ensureCapacity ((fo.frameCount : ℚ) + ((fi.frameCount : ℚ) / t.rate + 1))
      with hf1
    have hbound := transpose_bound t fi.frameCount fi.vector fi.startIndex f1.vector
      f1.endIndex hr hs
    have hlen := transpose_length t fi.frameCount fi.vector fi.startIndex f1.vector
      f1.endIndex
    constructor
    · exact FifoSampleBuffer.receive_Inv fi _ hfi
    · unfold FifoSampleBuffer.endIndex at hlen hbound
      set R := t.transpose fi.frameCount fi.vector fi.startIndex f1.vector
        ((f1.positionFrames + f1.frameCount) * CHANNELS) with hRdef
      show FifoSampleBuffer.Inv ⟨R.2.2, f1.positionFrames, f1.frameCount + R.2.1⟩
      unfold FifoSampleBuffer.Inv FifoSampleBuffer.endIndex
      show (f1.positionFrames + (f1.frameCount + R.2.1)) * CHANNELS ≤ R.2.2.length
      rw [hlen, e1, e2, Nat.zero_add]
      have hT : ((R.2.1 : ℕ) : ℚ) ≤ (fi.frameCount : ℚ) / t.rate + 1 := by
        have h2 : ((R.2.1 : ℕ) : ℚ) ≤ ((fi.frameCount : ℚ) + t.rate) / t.rate := by
          rw [le_div_iff₀ hr]
          exact hbound
        have h3 : ((fi.frameCount : ℚ) + t.rate) / t.rate
            = (fi.frameCount : ℚ) / t.rate + 1 := by
          field_simp
        rw [h3] at h2
        exact h2
      calc (fo.frameCount + R.2.1) * CHANNELS
          ≤ (max 0 ⌈((fo.frameCount : ℚ) + ((fi.frameCount : ℚ) / t.rate + 1))
              * (CHANNELS : ℚ)⌉).toNat := by
            apply le_toNat_max_ceil
            push_cast
            have hC : (0 : ℚ) ≤ (CHANNELS : ℚ) := by positivity
            nlinarith [hT]
        _ ≤ f1.vector.length := e5

end RateTransposer

/-- C4: every Sample-FIFO operation preserves the storage invariant
`(positionFrames + frameCount) * CHANNELS ≤ storage length` (the
`0 ≤ positionFrames` half is structural here, `positionFrames : ℕ`), and
`RateTransposer.process` — which reserves `numFrames / rate + 1` extra
output frames before its transpose loop writes and then reserves the
produced frames via `put` — preserves it on both of its FIFOs for any
positive rate and nonnegative carried phase, so no write lands past the
allocated storage. -/
theorem C4_fifo_invariant_preservation :
    (∀ f : FifoSampleBuffer, f.Inv → f.rewind.Inv) ∧
    (∀ (f : FifoSampleBuffer) (n : ℚ), f.Inv → (f.frameCount : ℚ) ≤ n →
      (f.ensureCapacity n).Inv) ∧
    (∀ (f : FifoSampleBuffer) (samples : List Samp) (p k : ℤ), f.Inv →
      (f.putSamples samples p k).Inv) ∧
    (∀ (f b : FifoSampleBuffer) (p k : ℤ), f.Inv → (f.putBuffer b p k).Inv) ∧
    (∀ (f : FifoSampleBuffer) (k : ℤ), f.Inv → (f.receive k).Inv) ∧
    (∀ (f : FifoSampleBuffer) (out : List Samp) (k : ℕ), f.Inv →
      (f.receiveSamples out k).1.Inv) ∧
    (∀ f : FifoSampleBuffer, f.Inv → f.clear.Inv) ∧
    (∀ (t : RateTransposer) (fi fo : FifoSampleBuffer),
      0 < t.rate → 0 ≤ t.slopeCount → fi.Inv → fo.Inv →
      (t.process fi fo).2.1.Inv ∧ (t.process fi fo).2.2.Inv) := by
  refine ⟨?_, ?_, ?_, ?_, ?_, ?_, ?_, ?_⟩
  · intro f h
    exact (FifoSampleBuffer.rewind_spec f h).2.2.2.1
  · intro f n h hn
    exact (FifoSampleBuffer.ensureCapacity_spec f n h hn).2.2.1
  · intro f samples p k h
    exact FifoSampleBuffer.putSamples_Inv f samples p k h
  · intro f b p k h
    exact FifoSampleBuffer.putBuffer_Inv f b p k h
  · intro f k h
    exact FifoSampleBuffer.receive_Inv f k h
  · intro f out k h
    exact FifoSampleBuffer.receiveSamples_Inv f out k h
  · intro f h
    exact FifoSampleBuffer.clear_Inv f h
  · intro t fi fo hr hs hfi hfo
    exact RateTransposer.process_spec t fi fo hr hs hfi hfo

section ConcreteWitnesses

attribute [local semireducible] Rat.add Rat.mul Rat.sub Rat.inv

/-- Witness for C4: a transposer with rate 1 processing one buffered frame
into an empty output FIFO keeps both FIFO invariants. -/
theorem C4_fifo_invariant_preservation_witness :
    ((RateTransposer.init.process
        (FifoSampleBuffer.empty.putSamples [Samp.fin 1, Samp.fin 2] 0 1)
        FifoSampleBuffer.empty).2.1.Inv ∧
      (RateTransposer.init.process
        (FifoSampleBuffer.empty.putSamples [Samp.fin 1, Samp.fin 2] 0 1)
        FifoSampleBuffer.empty).2.2.Inv) :=
  C4_fifo_invariant_preservation.2.2.2.2.2.2.2 RateTransposer.init
    (FifoSampleBuffer.empty.putSamples [Samp.fin 1, Samp.fin 2] 0 1)
    FifoSampleBuffer.empty (by decide) (by decide) (by decide) (by decide)

end ConcreteWitnesses

namespace Stretch

theorem seek_fst (st : Stretch) (fi : FifoSampleBuffer) :
    (seekBestOverlapPosition st fi).1 = preCalculateCorrelationReferenceStereo st := by
  unfold seekBestOverlapPosition seekBestOverlapPositionStereoQuick
    seekBestOverlapPositionStereo
  by_cases h : st.quickSeek
  · rw [if_pos h]
  · rw [if_neg h]

theorem preCalc_skipFract (st : Stretch) :
    (preCalculateCorrelationReferenceStereo st).skipFract = st.skipFract := rfl

theorem preCalc_nominalSkip (st : Stretch) :
    (preCalculateCorrelationReferenceStereo st).nominalSkip = st.nominalSkip := rfl

theorem iter_snd_fst (st : Stretch) (fi fo : FifoSampleBuffer) :
    (iter st fi fo).2.1 = fi.receive ⌊st.skipFract + st.nominalSkip⌋ := by
  unfold iter
  simp only [seek_fst, preCalc_skipFract, preCalc_nominalSkip]

theorem iter_fst_skipFract (st : Stretch) (fi fo : FifoSampleBuffer) :
    (iter st fi fo).1.skipFract
      = st.skipFract + st.nominalSkip
        - ((⌊st.skipFract + st.nominalSkip⌋ : ℤ) : ℚ) := by
  unfold iter
  simp only [seek_fst, preCalc_skipFract, preCalc_nominalSkip]

end Stretch

/-- C5 (amended): at the end of every Stretcher iteration reachable from a
consistent state (`sampleReq` derived from `nominalSkip` as the tempo
setter leaves it, `0 ≤ skipFract < 1`, `0 ≤ nominalSkip`, enough buffered
input), the input read cursor advances by `⌊nominalSkip + skipFract⌋`
frames — floor, not round — and `skipFract` retains the new fractional
remainder, so long-run accounting is exact. -/
theorem C5_stretch_iteration_advances_by_floor (st : Stretch)
    (fi fo : FifoSampleBuffer)
    (h1 : 0 ≤ st.skipFract) (h2 : st.skipFract < 1) (h3 : 0 ≤ st.nominalSkip)
    (h4 : st.sampleReq
      = max (⌊st.nominalSkip + 1/2⌋ + (st.overlapLength : ℤ)) st.seekWindowLength
        + st.seekLength)
    (h5 : st.sampleReq ≤ (fi.frameCount : ℤ))
    (h6 : 1 ≤ st.overlapLength) (h7 : 0 ≤ st.seekLength) :
    (Stretch.iter st fi fo).2.1.positionFrames
      = fi.positionFrames + (⌊st.skipFract + st.nominalSkip⌋).toNat ∧
    (Stretch.iter st fi fo).1.skipFract
      = st.skipFract + st.nominalSkip
        - ((⌊st.skipFract + st.nominalSkip⌋ : ℤ) : ℚ) := by
  refine ⟨?_, Stretch.iter_fst_skipFract st fi fo⟩
  rw [Stretch.iter_snd_fst]
  obtain ⟨p1, p2, p3⟩ := FifoSampleBuffer.receive_frames fi ⌊st.skipFract + st.nominalSkip⌋
  rw [p1]
  have hx0 : 0 ≤ ⌊st.skipFract + st.nominalSkip⌋ := Int.floor_nonneg.mpr (by linarith)
  have hint : st.nominalSkip - 1/2 < ((⌊st.nominalSkip + 1/2⌋ : ℤ) : ℚ) := by
    have := Int.lt_floor_add_one (st.nominalSkip + 1/2)
    linarith
  have hfl : ((⌊st.skipFract + st.nominalSkip⌋ : ℤ) : ℚ) ≤ st.skipFract + st.nominalSkip :=
    Int.floor_le _
  have hle : ⌊st.skipFract + st.nominalSkip⌋ ≤ ⌊st.nominalSkip + 1/2⌋ + 1 := by
    have hq : ((⌊st.skipFract + st.nominalSkip⌋ : ℤ) : ℚ)
        < ((⌊st.nominalSkip + 1/2⌋ + 2 : ℤ) : ℚ) := by
      push_cast
      linarith
    have hZ : ⌊st.skipFract + st.nominalSkip⌋ < ⌊st.nominalSkip + 1/2⌋ + 2 := by
      exact_mod_cast hq
    omega
  have hcnt : ⌊st.skipFract + st.nominalSkip⌋ ≤ (fi.frameCount : ℤ) := by
    have hmax : ⌊st.nominalSkip + 1/2⌋ + (st.overlapLength : ℤ)
        ≤ max (⌊st.nominalSkip + 1/2⌋ + (st.overlapLength : ℤ)) st.seekWindowLength :=
      le_max_left _ _
    have hovl : (1 : ℤ) ≤ (st.overlapLength : ℤ) := by exact_mod_cast h6
    omega
  congr 1
  omega

section ConcreteEvaluationStretch

attribute [local semireducible] Rat.add Rat.mul Rat.sub Rat.inv

/-- Counterexample for C5 as stated: at sample rate 500 and tempo 79/78
the Stretcher has `overlapLength = 16`, `skipFract = 0` and
`nominalSkip = 39.5` (so `sampleReq = 67`); feeding 83 zero frames primes
`midBuffer` (consuming 16 frames) and runs exactly one iteration, after
which the input read cursor stands at 55 = 16 + ⌊39.5⌋, not at
56 = 16 + round(39.5) as the claim predicts. -/
theorem C5_round_claim_counterexample :
    (Stretch.process (Stretch.setTempo (Stretch.init 500) (79/78))
        (FifoSampleBuffer.empty.putSamples (List.replicate 166 (Samp.fin 0)) 0 83)
        FifoSampleBuffer.empty).2.1.positionFrames = 55 ∧
    (Stretch.setTempo (Stretch.init 500) (79/78)).overlapLength = 16 ∧
    (Stretch.setTempo (Stretch.init 500) (79/78)).skipFract = 0 ∧
    (Stretch.setTempo (Stretch.init 500) (79/78)).sampleReq = 67 ∧
    (Stretch.process (Stretch.setTempo (Stretch.init 500) (79/78))
        (FifoSampleBuffer.empty.putSamples (List.replicate 166 (Samp.fin 0)) 0 83)
        FifoSampleBuffer.empty).2.1.frameCount = 28 ∧
    round ((Stretch.setTempo (Stretch.init 500) (79/78)).skipFract
      + (Stretch.setTempo (Stretch.init 500) (79/78)).nominalSkip) = 40 ∧
    (55 : ℕ) ≠ 16 + 40 := by
  refine ⟨by decide, by decide, by decide, by decide, by decide, by decide, by decide⟩

/-- Witness for the amended C5 at tempo 1, sample rate 500, 66 buffered
zero frames (exactly `sampleReq`). -/
theorem C5_stretch_iteration_advances_by_floor_witness :
    (Stretch.iter (Stretch.setTempo (Stretch.init 500) 1)
        (FifoSampleBuffer.empty.putSamples (List.replicate 132 (Samp.fin 0)) 0 66)
        FifoSampleBuffer.empty).2.1.positionFrames
      = (FifoSampleBuffer.empty.putSamples (List.replicate 132 (Samp.fin 0)) 0 66).positionFrames
        + (⌊(Stretch.setTempo (Stretch.init 500) 1).skipFract
            + (Stretch.setTempo (Stretch.init 500) 1).nominalSkip⌋).toNat ∧
    (Stretch.iter (Stretch.setTempo (Stretch.init 500) 1)
        (FifoSampleBuffer.empty.putSamples (List.replicate 132 (Samp.fin 0)) 0 66)
        FifoSampleBuffer.empty).1.skipFract
      = (Stretch.setTempo (Stretch.init 500) 1).skipFract
        + (Stretch.setTempo (Stretch.init 500) 1).nominalSkip
        - ((⌊(Stretch.setTempo (Stretch.init 500) 1).skipFract
            + (Stretch.setTempo (Stretch.init 500) 1).nominalSkip⌋ : ℤ) : ℚ) :=
  C5_stretch_iteration_advances_by_floor (Stretch.setTempo (Stretch.init 500) 1)
    (FifoSampleBuffer.empty.putSamples (List.replicate 132 (Samp.fin 0)) 0 66)
    FifoSampleBuffer.empty (by decide) (by decide) (by decide) (by decide) (by decide)
    (by decide) (by decide)

end ConcreteEvaluationStretch

namespace Stretch

theorem calculateOverlapLength_good (st : Stretch) (ms : ℚ) :
    16 ≤ (st.calculateOverlapLength ms).overlapLength ∧
    8 ∣ (st.calculateOverlapLength ms).overlapLength := by
  unfold calculateOverlapLength
  simp only []
  set a : ℚ := if st.sampleRate * ms / 1000 < 16 then 16 else st.sampleRate * ms / 1000
    with ha
  have ha16 : (16 : ℚ) ≤ a := by
    rw [ha]
    by_cases hc : st.sampleRate * ms / 1000 < 16
    · rw [if_pos hc]
    · rw [if_neg hc]
      linarith [le_of_not_lt hc]
  have hsub : a - jsModPos a 8 = ((8 * ⌊a / 8⌋ : ℤ) : ℚ) := by
    unfold jsModPos
    push_cast
    ring
  have hfl : ⌊a - jsModPos a 8⌋ = 8 * ⌊a / 8⌋ := by
    rw [hsub, Int.floor_intCast]
  have hk : 2 ≤ ⌊a / 8⌋ := by
    rw [Int.le_floor]
    rw [le_div_iff₀ (by norm_num : (0 : ℚ) < 8)]
    push_cast
    linarith
  constructor
  · show 16 ≤ (⌊a - jsModPos a 8⌋).toNat
    rw [hfl]
    omega
  · show 8 ∣ (⌊a - jsModPos a 8⌋).toNat
    rw [hfl]
    exact ⟨(⌊a / 8⌋).toNat, by omega⟩

theorem calcSeq_overlapLength (st : Stretch) :
    (calculateSequenceParameters st).overlapLength = st.overlapLength := by
  unfold calculateSequenceParameters
  simp only []
  split
  · split
    · rfl
    · rfl
  · split
    · rfl
    · rfl

theorem setTempo_overlapLength (st : Stretch) (t : ℚ) :
    (st.setTempo t).overlapLength = st.overlapLength := by
  unfold setTempo
  simp only []
  show (calculateSequenceParameters { st with tempo := t }).overlapLength = st.overlapLength
  rw [calcSeq_overlapLength]

theorem setParameters_good (st : Stretch) (a b c d : ℚ) :
    16 ≤ (st.setParameters a b c d).overlapLength ∧
    8 ∣ (st.setParameters a b c d).overlapLength := by
  unfold setParameters
  simp only []
  rw [setTempo_overlapLength]
  apply calculateOverlapLength_good

theorem init_good (sampleRate : ℚ) :
    16 ≤ (init sampleRate).overlapLength ∧ 8 ∣ (init sampleRate).overlapLength :=
  setParameters_good (base sampleRate) sampleRate DEFAULT_SEQUENCE_MS DEFAULT_SEEKWINDOW_MS
    DEFAULT_OVERLAP_MS

theorem preCalc_overlapLength (st : Stretch) :
    (preCalculateCorrelationReferenceStereo st).overlapLength = st.overlapLength := rfl

theorem iter_overlapLength (st : Stretch) (fi fo : FifoSampleBuffer) :
    (iter st fi fo).1.overlapLength = st.overlapLength := by
  unfold iter
  simp only [seek_fst, preCalc_overlapLength]

theorem loop_overlapLength (fuel : ℕ) : ∀ (st : Stretch) (fi fo : FifoSampleBuffer),
    (loop fuel st fi fo).1.overlapLength = st.overlapLength := by
  induction fuel with
  | zero => intro st fi fo; rfl
  | succ fuel ih =>
    intro st fi fo
    rw [loop]
    split
    · rw [ih, iter_overlapLength]
    · rfl

theorem process_overlapLength (st : Stretch) (fi fo : FifoSampleBuffer) :
    (st.process fi fo).1.overlapLength = st.overlapLength := by
  unfold process
  split
  · rw [loop_overlapLength]
  · split
    · rfl
    · rw [loop_overlapLength]

end Stretch

/-- C7: in every reachable Stretcher state — after construction, after any
`setParameters` call, after any tempo change, and across `process` and
`clear` — `overlapLength` is a multiple of 8 and at least 16 frames. -/
theorem C7_overlap_length_multiple_of_8_min_16 (st : Stretch)
    (h : Stretch.Reachable st) :
    16 ≤ st.overlapLength ∧ 8 ∣ st.overlapLength := by
  induction h with
  | ctor sampleRate => exact Stretch.init_good sampleRate
  | params st a b c d _ _ => exact Stretch.setParameters_good st a b c d
  | tempoSet st t _ ih => rw [Stretch.setTempo_overlapLength]; exact ih
  | proc st fi fo _ ih => rw [Stretch.process_overlapLength]; exact ih
  | clearState st fi fo _ ih => exact ih

/-- Witness for C7 at a freshly constructed Stretcher for a 48 kHz
stream. -/
theorem C7_overlap_length_multiple_of_8_min_16_witness :
    16 ≤ (Stretch.init 48000).overlapLength ∧ 8 ∣ (Stretch.init 48000).overlapLength :=
  C7_overlap_length_multiple_of_8_min_16 (Stretch.init 48000)
    (Stretch.Reachable.ctor 48000)

namespace SoundTouch

theorem setBuf_rate (s : SoundTouch) (c : FifoId) (f : FifoSampleBuffer) :
    (setBuf s c f).rate = s.rate := by
  cases c <;> rfl

theorem setBuf_wiring (s : SoundTouch) (c : FifoId) (f : FifoSampleBuffer) :
    wiring (setBuf s c f) = wiring s := by
  cases c <;> rfl

theorem stretchStep_rate (s : SoundTouch) : (stretchStep s).rate = s.rate := by
  unfold stretchStep
  rw [setBuf_rate, setBuf_rate]

theorem transposerStep_rate (s : SoundTouch) : (transposerStep s).rate = s.rate := by
  unfold transposerStep
  rw [setBuf_rate, setBuf_rate]

theorem stretchStep_wiring (s : SoundTouch) : wiring (stretchStep s) = wiring s := by
  unfold stretchStep
  rw [setBuf_wiring, setBuf_wiring]
  rfl

theorem transposerStep_wiring (s : SoundTouch) : wiring (transposerStep s) = wiring s := by
  unfold transposerStep
  rw [setBuf_wiring, setBuf_wiring]
  rfl

theorem process_rate (s : SoundTouch) : s.process.rate = s.rate := by
  unfold process
  split
  · rw [transposerStep_rate, stretchStep_rate]
  · rw [stretchStep_rate, transposerStep_rate]

theorem process_wiring (s : SoundTouch) : wiring s.process = wiring s := by
  unfold process
  split
  · rw [transposerStep_wiring, stretchStep_wiring]
  · rw [stretchStep_wiring, transposerStep_wiring]

theorem wiredA_of_wiring (s s' : SoundTouch) (hw : wiring s = wiring s')
    (h : WiredA s') : WiredA s := by
  unfold wiring at hw
  unfold WiredA at *
  have h1 : s.transposerIn = s'.transposerIn := congrArg (fun p => p.1) hw
  have h2 : s.transposerOut = s'.transposerOut := congrArg (fun p => p.2.1) hw
  have h3 : s.stretchIn = s'.stretchIn := congrArg (fun p => p.2.2.1) hw
  have h4 : s.stretchOut = s'.stretchOut := congrArg (fun p => p.2.2.2) hw
  exact ⟨h3.trans h.1, h4.trans h.2.1, h1.trans h.2.2.1, h2.trans h.2.2.2⟩

theorem wiredB_of_wiring (s s' : SoundTouch) (hw : wiring s = wiring s')
    (h : WiredB s') : WiredB s := by
  unfold wiring at hw
  unfold WiredB at *
  have h1 : s.transposerIn = s'.transposerIn := congrArg (fun p => p.1) hw
  have h2 : s.transposerOut = s'.transposerOut := congrArg (fun p => p.2.1) hw
  have h3 : s.stretchIn = s'.stretchIn := congrArg (fun p => p.2.2.1) hw
  have h4 : s.stretchOut = s'.stretchOut := congrArg (fun p => p.2.2.2) hw
  exact ⟨h1.trans h.1, h2.trans h.2.1, h3.trans h.2.2.1, h4.trans h.2.2.2⟩

theorem process_WiredOK (s : SoundTouch) (h : WiredOK s) : WiredOK s.process := by
  unfold WiredOK at *
  rw [process_rate]
  by_cases hr : 1 < s.rate
  · rw [if_pos hr] at h ⊢
    exact wiredA_of_wiring _ _ (process_wiring s) h
  · rw [if_neg hr] at h ⊢
    exact wiredB_of_wiring _ _ (process_wiring s) h

theorem calc_WiredOK (s : SoundTouch) (h : WiredOK s) :
    WiredOK (calculateEffectiveRateAndTempo s) := by
  unfold WiredOK WiredA WiredB at h ⊢
  unfold calculateEffectiveRateAndTempo
  simp only []
  split_ifs at h ⊢ <;> simp_all

theorem calc_wiring_noop_A (s : SoundTouch) (hA : WiredA s)
    (hr : 1 < s.virtualRate * s.virtualPitch) :
    wiring (calculateEffectiveRateAndTempo s) = wiring s := by
  obtain ⟨h1, h2, h3, h4⟩ := hA
  unfold calculateEffectiveRateAndTempo wiring
  simp only []
  split_ifs <;> simp_all

theorem calc_wiring_noop_B (s : SoundTouch) (hB : WiredB s)
    (hr : ¬ 1 < s.virtualRate * s.virtualPitch) :
    wiring (calculateEffectiveRateAndTempo s) = wiring s := by
  obtain ⟨h1, h2, h3, h4⟩ := hB
  unfold calculateEffectiveRateAndTempo wiring
  simp only []
  split_ifs <;> simp_all

theorem init_WiredOK (sampleRate : ℚ) : WiredOK (init sampleRate) := by
  unfold init calculateEffectiveRateAndTempo
  norm_num [hasSignificantChange, FLOAT_EPSILON]
  unfold WiredOK WiredB
  simp +decide

theorem stretchStep_inpMid (s : SoundTouch) (h1 : s.stretchIn = .inp)
    (h2 : s.stretchOut = .mid) :
    stretchStep s =
      { s with
          stretch := (s.stretch.process s.inputBuffer s.intermediateBuffer).1
          inputBuffer := (s.stretch.process s.inputBuffer s.intermediateBuffer).2.1
          intermediateBuffer := (s.stretch.process s.inputBuffer s.intermediateBuffer).2.2 } := by
  unfold stretchStep
  rw [h1, h2]
  simp only [getBuf, setBuf]

theorem stretchStep_midOut (s : SoundTouch) (h1 : s.stretchIn = .mid)
    (h2 : s.stretchOut = .out) :
    stretchStep s =
      { s with
          stretch := (s.stretch.process s.intermediateBuffer s.outputBuffer).1
          intermediateBuffer := (s.stretch.process s.intermediateBuffer s.outputBuffer).2.1
          outputBuffer := (s.stretch.process s.intermediateBuffer s.outputBuffer).2.2 } := by
  unfold stretchStep
  rw [h1, h2]
  simp only [getBuf, setBuf]

theorem transposerStep_inpMid (s : SoundTouch) (h1 : s.transposerIn = .inp)
    (h2 : s.transposerOut = .mid) :
    transposerStep s =
      { s with
          transposer := (s.transposer.process s.inputBuffer s.intermediateBuffer).1
          inputBuffer := (s.transposer.process s.inputBuffer s.intermediateBuffer).2.1
          intermediateBuffer := (s.transposer.process s.inputBuffer s.intermediateBuffer).2.2 } := by
  unfold transposerStep
  rw [h1, h2]
  simp only [getBuf, setBuf]

theorem transposerStep_midOut (s : SoundTouch) (h1 : s.transposerIn = .mid)
    (h2 : s.transposerOut = .out) :
    transposerStep s =
      { s with
          transposer := (s.transposer.process s.intermediateBuffer s.outputBuffer).1
          intermediateBuffer := (s.transposer.process s.intermediateBuffer s.outputBuffer).2.1
          outputBuffer := (s.transposer.process s.intermediateBuffer s.outputBuffer).2.2 } := by
  unfold transposerStep
  rw [h1, h2]
  simp only [getBuf, setBuf]

theorem process_eq_stretchFirstFlow (s : SoundTouch) (hA : WiredA s)
    (hr : 1 < s.rate) : s.process = stretchFirstFlow s := by
  obtain ⟨h1, h2, h3, h4⟩ := hA
  unfold process
  rw [if_pos hr, stretchStep_inpMid s h1 h2]
  unfold transposerStep
  simp only []
  rw [h3, h4]
  simp only [getBuf, setBuf]
  unfold stretchFirstFlow
  simp only []
  rw [h3, h4]

theorem process_eq_transposerFirstFlow (s : SoundTouch) (hB : WiredB s)
    (hr : ¬ 1 < s.rate) : s.process = transposerFirstFlow s := by
  obtain ⟨h1, h2, h3, h4⟩ := hB
  unfold process
  rw [if_neg hr, transposerStep_inpMid s h1 h2]
  unfold stretchStep
  simp only []
  rw [h3, h4]
  simp only [getBuf, setBuf]
  unfold transposerFirstFlow
  simp only []
  rw [h3, h4]

end SoundTouch

/-- C8: in every reachable Combiner state the pipes' wiring matches the
topology selected by the effective rate (stretch → intermediate →
transposer when rate > 1, transposer → intermediate → stretcher
otherwise), `process()` runs the pipes in that order over those FIFOs,
and `calculateEffectiveRateAndTempo` re-points the buffer handles only
when the topology actually changes. -/
theorem C8_topology_selection (s : SoundTouch) (h : SoundTouch.Reachable s) :
    SoundTouch.WiredOK s ∧
    (1 < s.rate → s.process = SoundTouch.stretchFirstFlow s) ∧
    (¬ 1 < s.rate → s.process = SoundTouch.transposerFirstFlow s) ∧
    (∀ s' : SoundTouch,
      (1 < s'.virtualRate * s'.virtualPitch → SoundTouch.WiredA s' →
        SoundTouch.wiring (SoundTouch.calculateEffectiveRateAndTempo s')
          = SoundTouch.wiring s') ∧
      (¬ 1 < s'.virtualRate * s'.virtualPitch → SoundTouch.WiredB s' →
        SoundTouch.wiring (SoundTouch.calculateEffectiveRateAndTempo s')
          = SoundTouch.wiring s')) := by
  have hOK : SoundTouch.WiredOK s := by
    induction h with
    | ctor sr => exact SoundTouch.init_WiredOK sr
    | rateSet s x _ ih => exact SoundTouch.calc_WiredOK _ ih
    | tempoSet s x _ ih => exact SoundTouch.calc_WiredOK _ ih
    | pitchSet s x _ ih => exact SoundTouch.calc_WiredOK _ ih
    | proc s _ ih => exact SoundTouch.process_WiredOK _ ih
  refine ⟨hOK, ?_, ?_, ?_⟩
  · intro hr
    have hA : SoundTouch.WiredA s := by
      unfold SoundTouch.WiredOK at hOK
      rwa [if_pos hr] at hOK
    exact SoundTouch.process_eq_stretchFirstFlow s hA hr
  · intro hr
    have hB : SoundTouch.WiredB s := by
      unfold SoundTouch.WiredOK at hOK
      rwa [if_neg hr] at hOK
    exact SoundTouch.process_eq_transposerFirstFlow s hB hr
  · intro s'
    exact ⟨fun a b => SoundTouch.calc_wiring_noop_A s' b a,
      fun a b => SoundTouch.calc_wiring_noop_B s' b a⟩

/-- Witness for C8 at a freshly constructed Combiner. -/
theorem C8_topology_selection_witness : SoundTouch.WiredOK (SoundTouch.init 48000) :=
  (C8_topology_selection (SoundTouch.init 48000) (SoundTouch.Reachable.ctor 48000)).1

theorem setN_length (v : List Samp) (i : ℕ) (x : Samp) : (setN v i x).length = v.length := by
  simp [setN]

theorem getN_setN_ne (v : List Samp) (i j : ℕ) (x : Samp) (h : j ≠ i) :
    getN (setN v i x) j = getN v j := by
  simp [getN, setN, List.getD_eq_getElem?_getD, List.getElem?_set_ne (Ne.symm h)]

theorem getN_setN_self (v : List Samp) (i : ℕ) (x : Samp) (h : i < v.length) :
    getN (setN v i x) i = x := by
  simp [getN, setN, List.getD_eq_getElem?_getD, List.getElem?_set_eq h]

theorem getN_oob (v : List Samp) (i : ℕ) (h : v.length ≤ i) : getN v i = Samp.nonfin := by
  simp [getN, List.getD_eq_getElem?_getD, List.getElem?_eq_none h]

theorem busWrite_length (b : List (List Samp)) (c i : ℕ) (x : Samp) :
    (busWrite b c i x).length = b.length := by
  simp [busWrite]

theorem busWrite_getD_ne (b : List (List Samp)) (c i : ℕ) (x : Samp) (c' : ℕ) (h : c' ≠ c) :
    (busWrite b c i x).getD c' [] = b.getD c' [] := by
  simp [busWrite, List.getD_eq_getElem?_getD, List.getElem?_set_ne (Ne.symm h)]

theorem busWrite_getD_self (b : List (List Samp)) (c i : ℕ) (x : Samp) (h : c < b.length) :
    (busWrite b c i x).getD c [] = setN (b.getD c []) i x := by
  simp [busWrite, List.getD_eq_getElem?_getD, List.getElem?_set_eq h,
    List.getD_eq_getElem?_getD, List.getElem?_eq_getElem h]

theorem busWrite_oob (b : List (List Samp)) (c i : ℕ) (x : Samp) (h : b.length ≤ c) :
    busWrite b c i x = b := by
  simp [busWrite, List.set_eq_of_length_le h]

theorem busWrite_getD_length (b : List (List Samp)) (c i : ℕ) (x : Samp) (c' : ℕ) :
    ((busWrite b c i x).getD c' []).length = (b.getD c' []).length := by
  by_cases hc : c' = c
  · subst hc
    by_cases h : c' < b.length
    · rw [busWrite_getD_self _ _ _ _ h, setN_length]
    · rw [busWrite_oob _ _ _ _ (le_of_not_lt h)]
  · rw [busWrite_getD_ne _ _ _ _ _ hc]

theorem getN_busWrite_getD_ne (b : List (List Samp)) (c i : ℕ) (x : Samp) (c' j : ℕ)
    (h : j ≠ i) : getN ((busWrite b c i x).getD c' []) j = getN (b.getD c' []) j := by
  by_cases hc : c' = c
  · subst hc
    by_cases h2 : c' < b.length
    · rw [busWrite_getD_self _ _ _ _ h2, getN_setN_ne _ _ _ _ h]
    · rw [busWrite_oob _ _ _ _ (le_of_not_lt h2)]
  · rw [busWrite_getD_ne _ _ _ _ _ hc]

theorem interleaveLoop_length (il leftIn rightIn : List Samp) :
    ∀ n, (interleaveLoop il leftIn rightIn n).length = il.length := by
  intro n
  induction n with
  | zero => rfl
  | succ n ih =>
      unfold interleaveLoop
      simp only [setN_length]
      exact ih

theorem interleaveLoop_spec (il leftIn rightIn : List Samp) :
    ∀ n, ∀ i, i < n → i * 2 + 1 < il.length →
      getN (interleaveLoop il leftIn rightIn n) (i * 2) = getN leftIn i ∧
      getN (interleaveLoop il leftIn rightIn n) (i * 2 + 1) = getN rightIn i := by
  intro n
  induction n with
  | zero => intro i hi; omega
  | succ n ih =>
      intro i hi hil
      unfold interleaveLoop
      simp only []
      by_cases hin : i = n
      · subst hin
        have hlen : (interleaveLoop il leftIn rightIn i).length = il.length :=
          interleaveLoop_length il leftIn rightIn i
        constructor
        · rw [getN_setN_ne _ _ _ _ (by omega), getN_setN_self]
          omega
        · rw [getN_setN_self]
          rw [setN_length]
          omega
      · have h1 : i * 2 ≠ n * 2 + 1 := by omega
        have h2 : i * 2 ≠ n * 2 := by omega
        have h3 : i * 2 + 1 ≠ n * 2 + 1 := by omega
        have h4 : i * 2 + 1 ≠ n * 2 := by omega
        rw [getN_setN_ne _ _ _ _ h1, getN_setN_ne _ _ _ _ h2,
          getN_setN_ne _ _ _ _ h3, getN_setN_ne _ _ _ _ h4]
        exact ih i (by omega) hil

theorem outWriteLoop_spec (bus : List (List Samp)) (outIl : List Samp) (lIdx rIdx : ℕ) :
    ∀ n : ℕ,
      (outWriteLoop bus outIl lIdx rIdx n).length = bus.length ∧
      (∀ c, ((outWriteLoop bus outIl lIdx rIdx n).getD c []).length = (bus.getD c []).length) ∧
      (∀ c, c ≠ lIdx → c ≠ rIdx →
        (outWriteLoop bus outIl lIdx rIdx n).getD c [] = bus.getD c []) ∧
      (∀ i, i < n → i < ((outWriteLoop bus outIl lIdx rIdx n).getD rIdx []).length →
        getN ((outWriteLoop bus outIl lIdx rIdx n).getD rIdx []) i =
          (if (getN outIl (i * 2 + 1)).isFinite then getN outIl (i * 2 + 1) else Samp.fin 0)) ∧
      (∀ i, i < n → lIdx ≠ rIdx →
        i < ((outWriteLoop bus outIl lIdx rIdx n).getD lIdx []).length →
        getN ((outWriteLoop bus outIl lIdx rIdx n).getD lIdx []) i =
          (if (getN outIl (i * 2)).isFinite then getN outIl (i * 2) else Samp.fin 0)) := by
  intro n
  induction n with
  | zero =>
      refine ⟨rfl, fun c => rfl, fun c _ _ => rfl, fun i hi => by omega, fun i hi => by omega⟩
  | succ n ih =>
      obtain ⟨ihL, ihCL, ihU, ihR, ihl⟩ := ih
      unfold outWriteLoop
      simp only []
      refine ⟨?_, ?_, ?_, ?_, ?_⟩
      · rw [busWrite_length, busWrite_length]; exact ihL
      · intro c; rw [busWrite_getD_length, busWrite_getD_length]; exact ihCL c
      · intro c hcl hcr
        rw [busWrite_getD_ne _ _ _ _ _ hcr, busWrite_getD_ne _ _ _ _ _ hcl]
        exact ihU c hcl hcr
      · intro i hi hlen
        by_cases hin : i = n
        · subst hin
          have hr : rIdx < (busWrite (outWriteLoop bus outIl lIdx rIdx i) lIdx i
              (if (getN outIl (i * 2)).isFinite then getN outIl (i * 2) else Samp.fin 0)).length := by
            by_contra hcon
            have hble : (outWriteLoop bus outIl lIdx rIdx i).length ≤ rIdx := by
              have h0 := le_of_not_lt hcon
              rwa [busWrite_length] at h0
            rw [busWrite_oob _ _ _ _ (le_of_not_lt hcon), busWrite_getD_length] at hlen
            have hz : ((outWriteLoop bus outIl lIdx rIdx i).getD rIdx []).length = 0 := by
              simp [List.getD_eq_getElem?_getD, List.getElem?_eq_none hble]
            omega
          rw [busWrite_getD_self _ _ _ _ hr] at hlen ⊢
          rw [setN_length] at hlen
          rw [getN_setN_self _ _ _ hlen]
        · have hne : i ≠ n := hin
          rw [getN_busWrite_getD_ne _ _ _ _ _ _ hne, getN_busWrite_getD_ne _ _ _ _ _ _ hne]
          rw [busWrite_getD_length, busWrite_getD_length] at hlen
          exact ihR i (by omega) hlen
      · intro i hi hlr hlen
        by_cases hin : i = n
        · subst hin
          rw [busWrite_getD_ne _ _ _ _ _ hlr] at hlen ⊢
          have hl : lIdx < (outWriteLoop bus outIl lIdx rIdx i).length := by
            by_contra hcon
            have : (outWriteLoop bus outIl lIdx rIdx i).length ≤ lIdx := le_of_not_lt hcon
            rw [busWrite_oob _ _ _ _ this] at hlen
            have : ((outWriteLoop bus outIl lIdx rIdx i).getD lIdx []).length = 0 := by
              simp [List.getD_eq_getElem?_getD, List.getElem?_eq_none this]
            omega
          rw [busWrite_getD_self _ _ _ _ hl] at hlen ⊢
          rw [setN_length] at hlen
          rw [getN_setN_self _ _ _ hlen]
        · have hne : i ≠ n := hin
          rw [getN_busWrite_getD_ne _ _ _ _ _ _ hne, getN_busWrite_getD_ne _ _ _ _ _ _ hne]
          rw [busWrite_getD_length, busWrite_getD_length] at hlen
          exact ihl i (by omega) hlr hlen

theorem getD_set_self (b : List (List Samp)) (c : ℕ) (v : List Samp) (h : c < b.length) :
    (b.set c v).getD c [] = v := by
  simp [List.getD_eq_getElem?_getD, List.getElem?_set_eq h]

theorem getD_set_ne (b : List (List Samp)) (c : ℕ) (v : List Samp) (c' : ℕ) (h : c' ≠ c) :
    (b.set c v).getD c' [] = b.getD c' [] := by
  simp [List.getD_eq_getElem?_getD, List.getElem?_set_ne (Ne.symm h)]

theorem busFill0_lane (bus : List (List Samp)) (lIdx rIdx : ℕ)
    (hl : lIdx < bus.length) (hr : rIdx < bus.length) :
    (busFill0 bus lIdx rIdx).getD lIdx [] = fill0 (bus.getD lIdx []) ∧
    (busFill0 bus lIdx rIdx).getD rIdx [] = fill0 (bus.getD rIdx []) := by
  unfold busFill0
  by_cases h : rIdx = lIdx
  · subst h
    rw [if_neg (by simp)]
    rw [getD_set_self _ _ _ hl]
    exact ⟨rfl, rfl⟩
  · rw [if_pos h]
    have hlen : (bus.set lIdx (fill0 (bus.getD lIdx []))).length = bus.length := by simp
    constructor
    · rw [getD_set_ne _ _ _ _ (fun hc => h hc.symm), getD_set_self _ _ _ hl]
    · rw [getD_set_self _ _ _ (by rw [hlen]; exact hr), getD_set_ne _ _ _ _ h]

theorem fill0_getN (ch : List Samp) (i : ℕ) (h : i < ch.length) :
    getN (fill0 ch) i = Samp.fin 0 := by
  simp [fill0, getN, List.getD_eq_getElem?_getD, List.getElem?_replicate, h]

theorem guard_isFinite (x : Samp) :
    (if x.isFinite then x else Samp.fin 0).isFinite = true := by
  cases hx : x.isFinite
  · simp [hx, Samp.isFinite]
  · simp [hx]

theorem SoundTouchProcessor.process_no_output (pow2 : ℚ → ℚ) (p : SoundTouchProcessor)
    (inputs outputs : List (List (List Samp))) (parameters : WorkletParams)
    (h0 : (outputs.getD 0 []).length = 0) :
    SoundTouchProcessor.process pow2 p inputs outputs parameters
      = (p, outputs.getD 0 [], false) := by
  unfold SoundTouchProcessor.process
  simp only []
  rw [if_pos h0]

theorem SoundTouchProcessor.process_no_input (pow2 : ℚ → ℚ) (p : SoundTouchProcessor)
    (inputs outputs : List (List (List Samp))) (parameters : WorkletParams)
    (h0 : ¬ (outputs.getD 0 []).length = 0) (h1 : (inputs.getD 0 []).length = 0) :
    SoundTouchProcessor.process pow2 p inputs outputs parameters
      = (p, busFill0 (outputs.getD 0 []) 0
          (if 1 < (outputs.getD 0 []).length then 1 else 0), true) := by
  unfold SoundTouchProcessor.process
  simp only []
  rw [if_neg h0, if_pos h1]

theorem SoundTouchProcessor.process_main_eq (pow2 : ℚ → ℚ) (p : SoundTouchProcessor)
    (inputs outputs : List (List (List Samp))) (parameters : WorkletParams)
    (h0 : ¬ (outputs.getD 0 []).length = 0) (h1 : ¬ (inputs.getD 0 []).length = 0) :
    SoundTouchProcessor.process pow2 p inputs outputs parameters
      = SoundTouchProcessor.processMain pow2 p (inputs.getD 0 []) (outputs.getD 0 [])
          parameters := by
  unfold SoundTouchProcessor.process
  simp only []
  rw [if_neg h0, if_neg h1]

/-- C9: the adapter's per-block `process` is total in the model (no call
in its body can throw), and its return value is `true` exactly when the
first output bus has at least one channel — including invocations with no
input — and `false` only when the output bus is absent or empty. -/
theorem C9_return_value (pow2 : ℚ → ℚ) (p : SoundTouchProcessor)
    (inputs outputs : List (List (List Samp))) (parameters : WorkletParams) :
    (SoundTouchProcessor.process pow2 p inputs outputs parameters).2.2
      = decide ((outputs.getD 0 []).length ≠ 0) := by
  by_cases h0 : (outputs.getD 0 []).length = 0
  · rw [SoundTouchProcessor.process_no_output pow2 p inputs outputs parameters h0]
    show false = decide ((outputs.getD 0 []).length ≠ 0)
    rw [eq_comm, decide_eq_false_iff_not]
    omega
  · by_cases h1 : (inputs.getD 0 []).length = 0
    · rw [SoundTouchProcessor.process_no_input pow2 p inputs outputs parameters h0 h1]
      show true = decide ((outputs.getD 0 []).length ≠ 0)
      rw [eq_comm, decide_eq_true_eq]
      exact h0
    · rw [SoundTouchProcessor.process_main_eq pow2 p inputs outputs parameters h0 h1]
      have h2 : (SoundTouchProcessor.processMain pow2 p (inputs.getD 0 [])
          (outputs.getD 0 []) parameters).2.2 = true := rfl
      rw [h2, eq_comm, decide_eq_true_eq]
      exact h0

/-- C2: when the first input bus is missing or empty and the (mono or
stereo) output bus is present, the adapter call leaves the whole adapter
state — pipeline FIFOs, cursors, pipe states and scratch buffers —
unchanged, returns `true`, and every sample of every output channel is
written as exact zero for the whole block. -/
theorem C2_silence_on_no_input (pow2 : ℚ → ℚ) (p : SoundTouchProcessor)
    (inputs outputs : List (List (List Samp))) (parameters : WorkletParams)
    (hin : (inputs.getD 0 []).length = 0)
    (h1 : 0 < (outputs.getD 0 []).length) (h2 : (outputs.getD 0 []).length ≤ 2) :
    (SoundTouchProcessor.process pow2 p inputs outputs parameters).1 = p ∧
    (SoundTouchProcessor.process pow2 p inputs outputs parameters).2.2 = true ∧
    ((SoundTouchProcessor.process pow2 p inputs outputs parameters).2.1).map List.length
      = (outputs.getD 0 []).map List.length ∧
    ∀ ch ∈ (SoundTouchProcessor.process pow2 p inputs outputs parameters).2.1,
      ch = List.replicate ch.length (Samp.fin 0) := by
  rw [SoundTouchProcessor.process_no_input pow2 p inputs outputs parameters (by omega) hin]
  refine ⟨rfl, rfl, ?_, ?_⟩ <;>
    rcases hL : outputs.getD 0 [] with _ | ⟨c0, rest⟩ <;>
      rw [hL] at h1 h2 <;> try simp at h1
  · rcases rest with _ | ⟨c1, rest2⟩
    · simp [busFill0, fill0]
    · rcases rest2 with _ | ⟨c2, rest3⟩
      · simp [busFill0, fill0]
      · simp at h2
  · rcases rest with _ | ⟨c1, rest2⟩
    · simp [busFill0, fill0]
    · rcases rest2 with _ | ⟨c2, rest3⟩
      · intro ch hch
        simp [busFill0, fill0] at hch
        rcases hch with h | h <;> subst h <;> simp
      · simp at h2

theorem SoundTouchProcessor.processMain_bus (pow2 : ℚ → ℚ) (p : SoundTouchProcessor)
    (input output : List (List Samp)) (parameters : WorkletParams) :
    (SoundTouchProcessor.processMain pow2 p input output parameters).2.1
      = outWriteLoop output
          ((SoundTouchProcessor.processMain pow2 p input output parameters).1.outputInterleaved)
          0 (if 1 < output.length then 1 else 0) ((output.getD 0 []).length) := rfl

/-- C3: every sample the adapter writes to the host output lanes is
finite — in the silence branch the lanes are zero-filled, and in the main
branch every lane write passes through the `Number.isFinite` guard that
replaces non-finite values with zero — so a NaN or infinite input sample
never yields a non-finite output sample. -/
theorem C3_output_samples_finite (pow2 : ℚ → ℚ) (p : SoundTouchProcessor)
    (inputs outputs : List (List (List Samp))) (parameters : WorkletParams)
    (h1 : 0 < (outputs.getD 0 []).length) :
    ∀ c, (c = 0 ∨ c = (if 1 < (outputs.getD 0 []).length then 1 else 0)) →
      ∀ i, i < ((outputs.getD 0 []).getD 0 []).length →
        i < (((SoundTouchProcessor.process pow2 p inputs outputs parameters).2.1).getD c []).length →
        (getN (((SoundTouchProcessor.process pow2 p inputs outputs parameters).2.1).getD c [])
          i).isFinite = true := by
  intro c hc i hin hlen
  have hr : (if 1 < (outputs.getD 0 []).length then 1 else 0) < (outputs.getD 0 []).length := by
    split <;> omega
  by_cases hI : (inputs.getD 0 []).length = 0
  · rw [SoundTouchProcessor.process_no_input pow2 p inputs outputs parameters (by omega) hI]
      at hlen ⊢
    obtain ⟨hbl, hbr⟩ := busFill0_lane (outputs.getD 0 [])
      0 (if 1 < (outputs.getD 0 []).length then 1 else 0) h1 hr
    rcases hc with hc | hc <;> subst hc
    · rw [hbl] at hlen ⊢
      rw [fill0_getN _ _ (by rw [fill0] at hlen; simpa using hlen)]
      rfl
    · rw [hbr] at hlen ⊢
      rw [fill0_getN _ _ (by rw [fill0] at hlen; simpa using hlen)]
      rfl
  · rw [SoundTouchProcessor.process_main_eq pow2 p inputs outputs parameters (by omega) hI]
      at hlen ⊢
    rw [SoundTouchProcessor.processMain_bus] at hlen ⊢
    set rIdx := (if 1 < (outputs.getD 0 []).length then 1 else 0) with hrIdx
    obtain ⟨hL, hCL, hU, hR, hl⟩ := outWriteLoop_spec (outputs.getD 0 [])
      ((SoundTouchProcessor.processMain pow2 p (inputs.getD 0 []) (outputs.getD 0 [])
        parameters).1.outputInterleaved)
      0 rIdx ((outputs.getD 0 []).getD 0 []).length
    rcases hc with hc | hc
    · subst hc
      by_cases h0r : (0 : ℕ) = rIdx
      · rw [← h0r] at hR hlen ⊢
        rw [hR i hin hlen]
        exact guard_isFinite _
      · rw [hl i hin h0r hlen]
        exact guard_isFinite _
    · subst hc
      rw [hR i hin hlen]
      exact guard_isFinite _

theorem SoundTouchProcessor.processMain_inIl (pow2 : ℚ → ℚ) (p : SoundTouchProcessor)
    (input output : List (List Samp)) (parameters : WorkletParams) :
    (SoundTouchProcessor.processMain pow2 p input output parameters).1.inputInterleaved
      = interleaveInto p.inputInterleaved (input.getD 0 [])
          (if 1 < input.length then input.getD 1 [] else input.getD 0 []) := rfl

/-- C10: a mono input bus is duplicated into both lanes of the
interleaved stereo frames fed to the pipeline, and with a mono output bus
the left- and right-lane results are written to the same channel array
frame by frame (left first, right second), so after the call that array
holds the NaN-guarded right-lane result. -/
theorem C10_mono_lane_duplication (pow2 : ℚ → ℚ) (p : SoundTouchProcessor)
    (inputs outputs : List (List (List Samp))) (parameters : WorkletParams)
    (hin : (inputs.getD 0 []).length = 1)
    (hout : (outputs.getD 0 []).length = 1)
    (hil : 2 * ((inputs.getD 0 []).getD 0 []).length ≤ p.inputInterleaved.length) :
    (∀ i, i < ((inputs.getD 0 []).getD 0 []).length →
      getN ((SoundTouchProcessor.process pow2 p inputs outputs parameters).1.inputInterleaved)
          (i * 2)
        = getN ((inputs.getD 0 []).getD 0 []) i ∧
      getN ((SoundTouchProcessor.process pow2 p inputs outputs parameters).1.inputInterleaved)
          (i * 2 + 1)
        = getN ((inputs.getD 0 []).getD 0 []) i) ∧
    (∀ i, i < ((outputs.getD 0 []).getD 0 []).length →
      getN (((SoundTouchProcessor.process pow2 p inputs outputs parameters).2.1).getD 0 []) i
        = (if (getN ((SoundTouchProcessor.process pow2 p inputs outputs
              parameters).1.outputInterleaved) (i * 2 + 1)).isFinite
           then getN ((SoundTouchProcessor.process pow2 p inputs outputs
              parameters).1.outputInterleaved) (i * 2 + 1)
           else Samp.fin 0)) := by
  rw [SoundTouchProcessor.process_main_eq pow2 p inputs outputs parameters (by omega) (by omega)]
  constructor
  · intro i hi
    rw [SoundTouchProcessor.processMain_inIl]
    rw [if_neg (by omega)]
    unfold interleaveInto
    exact interleaveLoop_spec p.inputInterleaved ((inputs.getD 0 []).getD 0 [])
      ((inputs.getD 0 []).getD 0 []) ((inputs.getD 0 []).getD 0 []).length i hi (by omega)
  · intro i hi
    rw [SoundTouchProcessor.processMain_bus]
    rw [if_neg (by omega)]
    obtain ⟨hL, hCL, hU, hR, hl⟩ := outWriteLoop_spec (outputs.getD 0 [])
      ((SoundTouchProcessor.processMain pow2 p (inputs.getD 0 []) (outputs.getD 0 [])
        parameters).1.outputInterleaved)
      0 0 ((outputs.getD 0 []).getD 0 []).length
    rw [hR i hi]
    rw [hCL 0]
    exact hi

/-- Witness for C2 at concrete buses: no input bus, one stereo-frame mono
output channel. -/
theorem C2_silence_on_no_input_witness :
    (((([] : List (List (List Samp))).getD 0 []).length = 0 ∧
      0 < (([[[Samp.fin 3, Samp.nonfin]]] : List (List (List Samp))).getD 0 []).length ∧
      (([[[Samp.fin 3, Samp.nonfin]]] : List (List (List Samp))).getD 0 []).length ≤ 2) ∧
    ((SoundTouchProcessor.process (fun _ => 1) (SoundTouchProcessor.init 500) []
        [[[Samp.fin 3, Samp.nonfin]]] ⟨[], [], [], []⟩).1 = SoundTouchProcessor.init 500 ∧
      (SoundTouchProcessor.process (fun _ => 1) (SoundTouchProcessor.init 500) []
        [[[Samp.fin 3, Samp.nonfin]]] ⟨[], [], [], []⟩).2.2 = true ∧
      ((SoundTouchProcessor.process (fun _ => 1) (SoundTouchProcessor.init 500) []
        [[[Samp.fin 3, Samp.nonfin]]] ⟨[], [], [], []⟩).2.1).map List.length
        = (([[[Samp.fin 3, Samp.nonfin]]] : List (List (List Samp))).getD 0 []).map List.length ∧
      ∀ ch ∈ (SoundTouchProcessor.process (fun _ => 1) (SoundTouchProcessor.init 500) []
        [[[Samp.fin 3, Samp.nonfin]]] ⟨[], [], [], []⟩).2.1,
        ch = List.replicate ch.length (Samp.fin 0))) :=
  ⟨⟨by decide, by decide, by decide⟩,
    C2_silence_on_no_input (fun _ => 1) (SoundTouchProcessor.init 500) []
      [[[Samp.fin 3, Samp.nonfin]]] ⟨[], [], [], []⟩ (by decide) (by decide) (by decide)⟩

/-- Witness for C3 at a concrete stereo output bus with a NaN input
sample present. -/
theorem C3_output_samples_finite_witness :
    (0 < (([[[Samp.fin 0], [Samp.fin 1, Samp.fin 2]]] :
        List (List (List Samp))).getD 0 []).length) ∧
    (∀ c, (c = 0 ∨ c = (if 1 < (([[[Samp.fin 0], [Samp.fin 1, Samp.fin 2]]] :
          List (List (List Samp))).getD 0 []).length then 1 else 0)) →
      ∀ i, i < ((([[[Samp.fin 0], [Samp.fin 1, Samp.fin 2]]] :
          List (List (List Samp))).getD 0 []).getD 0 []).length →
        i < (((SoundTouchProcessor.process (fun x => x) (SoundTouchProcessor.init 48000)
            [[[Samp.nonfin]]] [[[Samp.fin 0], [Samp.fin 1, Samp.fin 2]]]
            ⟨[1], [1], [1], [0]⟩).2.1).getD c []).length →
        (getN (((SoundTouchProcessor.process (fun x => x) (SoundTouchProcessor.init 48000)
            [[[Samp.nonfin]]] [[[Samp.fin 0], [Samp.fin 1, Samp.fin 2]]]
            ⟨[1], [1], [1], [0]⟩).2.1).getD c []) i).isFinite = true) :=
  ⟨by decide,
    C3_output_samples_finite (fun x => x) (SoundTouchProcessor.init 48000)
      [[[Samp.nonfin]]] [[[Samp.fin 0], [Samp.fin 1, Samp.fin 2]]]
      ⟨[1], [1], [1], [0]⟩ (by decide)⟩

set_option maxRecDepth 10000 in
/-- Witness for C10 at concrete mono input and output buses. -/
theorem C10_mono_lane_duplication_witness :
    ((([[[Samp.fin 2]]] : List (List (List Samp))).getD 0 []).length = 1 ∧
      (([[[Samp.fin 7]]] : List (List (List Samp))).getD 0 []).length = 1 ∧
      2 * ((([[[Samp.fin 2]]] : List (List (List Samp))).getD 0 []).getD 0 []).length
        ≤ (SoundTouchProcessor.init 500).inputInterleaved.length) ∧
    ((∀ i, i < ((([[[Samp.fin 2]]] : List (List (List Samp))).getD 0 []).getD 0 []).length →
      getN ((SoundTouchProcessor.process (fun _ => 1) (SoundTouchProcessor.init 500)
          [[[Samp.fin 2]]] [[[Samp.fin 7]]] ⟨[], [], [], []⟩).1.inputInterleaved) (i * 2)
        = getN ((([[[Samp.fin 2]]] : List (List (List Samp))).getD 0 []).getD 0 []) i ∧
      getN ((SoundTouchProcessor.process (fun _ => 1) (SoundTouchProcessor.init 500)
          [[[Samp.fin 2]]] [[[Samp.fin 7]]] ⟨[], [], [], []⟩).1.inputInterleaved) (i * 2 + 1)
        = getN ((([[[Samp.fin 2]]] : List (List (List Samp))).getD 0 []).getD 0 []) i) ∧
    (∀ i, i < ((([[[Samp.fin 7]]] : List (List (List Samp))).getD 0 []).getD 0 []).length →
      getN (((SoundTouchProcessor.process (fun _ => 1) (SoundTouchProcessor.init 500)
          [[[Samp.fin 2]]] [[[Samp.fin 7]]] ⟨[], [], [], []⟩).2.1).getD 0 []) i
        = (if (getN ((SoundTouchProcessor.process (fun _ => 1) (SoundTouchProcessor.init 500)
              [[[Samp.fin 2]]] [[[Samp.fin 7]]] ⟨[], [], [], []⟩).1.outputInterleaved)
              (i * 2 + 1)).isFinite
           then getN ((SoundTouchProcessor.process (fun _ => 1) (SoundTouchProcessor.init 500)
              [[[Samp.fin 2]]] [[[Samp.fin 7]]] ⟨[], [], [], []⟩).1.outputInterleaved)
              (i * 2 + 1)
           else Samp.fin 0))) :=
  ⟨⟨by decide, by decide, by decide⟩,
    C10_mono_lane_duplication (fun _ => 1) (SoundTouchProcessor.init 500)
      [[[Samp.fin 2]]] [[[Samp.fin 7]]] ⟨[], [], [], []⟩ (by decide) (by decide) (by decide)⟩

